import Mathlib

/-!
Shallow embedding of the marketplace-simulation core: the market ledger
(src/models/market.py), participant economic state (src/models/agent.py),
process-wide thresholds (src/settings.py) and the round scheduler
(src/simulation/main.py).

Modelling conventions:
* Python `float` cash/prices are modelled as exact rationals; Python `int`
  counters (goods, energy) as integers.
* The agents dictionary is an association list with first-match lookup and
  first-match update, matching dict semantics for unique keys.
* The offer repository (insertion-ordered dict keyed by offer id) is a list
  of tracked offers; key assignment replaces an entry with the same id in
  place and otherwise appends, `del` removes the first entry with the id.
* Methods that mutate state and may raise `ValueError` are functions
  returning the state paired with an optional typed error; a raise happens
  at the exact program point it occurs in the source, so the returned state
  carries precisely the mutations performed before the raise (in the source
  all raises precede all mutations).  Human-readable return strings and
  logging are dropped; the external trade-persistence call is not modelled.
-/

/-- The closed set of tradable good kinds (`Literal['apple', 'chip', 'gold']`
in src/schemas/offer.py). -/
inductive Item where
  | apple
  | chip
  | gold
deriving DecidableEq, Repr

/-- Offer direction (`Literal['sell', 'buy']`). -/
inductive OfferType where
  | sell
  | buy
deriving DecidableEq, Repr

/-- Typed rendering of the `ValueError` raise sites in src/models/market.py
(the taxonomy of spec section 7) plus `keyError` for a missing dictionary key. -/
inductive Err where
  | offerNotFound
  | selfTrade
  | insufficientFunds
  | insufficientGoods
  | wrongDirection
  | notOwner
  | keyError
deriving DecidableEq, Repr

/-- src/schemas/inventory.py: cash plus one integer counter per good kind. -/
structure Inventory where
  cash : ℚ
  apple : ℤ
  chip : ℤ
  gold : ℤ
deriving DecidableEq, Repr

/-- `getattr(inventory, item)` over the closed good set. -/
def Inventory.getItem (inv : Inventory) : Item → ℤ
  | .apple => inv.apple
  | .chip => inv.chip
  | .gold => inv.gold

/-- `setattr(inventory, item, v)` over the closed good set. -/
def Inventory.setItem (inv : Inventory) : Item → ℤ → Inventory
  | .apple, v => { inv with apple := v }
  | .chip, v => { inv with chip := v }
  | .gold, v => { inv with gold := v }

/-- src/schemas/offer.py `OfferDraft`. -/
structure OfferDraft where
  supplier : String
  item : Item
  quantity : ℤ
  price : ℚ
  message : String
  offer_type : OfferType
deriving DecidableEq, Repr

/-- src/schemas/offer.py `TrackedOffer`: a draft plus its repository id. -/
structure TrackedOffer extends OfferDraft where
  id : ℕ
deriving DecidableEq, Repr

/-- src/schemas/trade.py `UnitTrade`. -/
structure UnitTrade where
  supplier : String
  buyer : String
  item : Item
  quantity : ℤ
  price : ℚ
deriving DecidableEq, Repr

/-- The economic state of src/models/agent.py `Agent`: inventory, energy,
per-round operational cost and the liveness flag.  (The LLM decision
machinery is the external policy collaborator and is not part of the state.) -/
structure Agent where
  inventory : Inventory
  energy : ℤ
  operational_cost : ℚ
  is_alive : Bool
deriving DecidableEq, Repr

/-- The `Dict[str, Agent]` of agents, as an insertion-ordered association list. -/
abbrev AgentMap := List (String × Agent)

/-- Dictionary lookup `agents[name]` (first matching key). -/
def lookupAgent : AgentMap → String → Option Agent
  | [], _ => none
  | (k, a) :: rest, n => if k = n then some a else lookupAgent rest n

/-- In-place mutation of the agent stored under a key: the first entry whose
key matches is replaced, everything else is untouched. -/
def updateAgent : AgentMap → String → (Agent → Agent) → AgentMap
  | [], _, _ => []
  | (k, a) :: rest, n, f =>
    if k = n then (k, f a) :: rest else (k, a) :: updateAgent rest n f

/-- src/settings.py `GeneralSettings`. -/
structure GeneralSettings where
  energy_qty_to_alert : ℤ
  energy_qty_to_consume_apple : ℤ
  energy_qty_restored_by_apple : ℤ
  rounds_left_to_alert : ℤ
deriving DecidableEq, Repr

/-- The process-wide `general_settings = GeneralSettings()` instance with the
field defaults from src/settings.py. -/
def general_settings : GeneralSettings :=
  { energy_qty_to_alert := 3
    energy_qty_to_consume_apple := 5
    energy_qty_restored_by_apple := 3
    rounds_left_to_alert := 3 }

/-- The mutable state owned by src/models/market.py `Market`: the offer
repository, the shared agents dictionary, the serial id counter
(src/utils/id_generator.py, next value to be issued) and the trade history. -/
structure MarketState where
  repository : List TrackedOffer
  agents : AgentMap
  next_id : ℕ
  trade_history : List UnitTrade
deriving DecidableEq, Repr

/-- `self._repository.get(offer_id, None)`: first offer with the given id. -/
def findOffer : List TrackedOffer → ℕ → Option TrackedOffer
  | [], _ => none
  | o :: rest, i => if o.id = i then some o else findOffer rest i

/-- `del self._repository[offer_id]`: drop the first offer with the given id. -/
def removeOffer : List TrackedOffer → ℕ → List TrackedOffer
  | [], _ => []
  | o :: rest, i => if o.id = i then rest else o :: removeOffer rest i

/-- `self._repository[offer.id] = offer`: replace in place when the key is
already present, otherwise append (dict insertion order). -/
def updateRepository (repo : List TrackedOffer) (t : TrackedOffer) : List TrackedOffer :=
  if repo.any (fun o => o.id = t.id) then
    repo.map (fun o => if o.id = t.id then t else o)
  else
    repo ++ [t]

/-- `setattr(inv, item, getattr(inv, item) + q)`: credit `q` units of a good. -/
def creditItem (inv : Inventory) (it : Item) (q : ℤ) : Inventory :=
  inv.setItem it (inv.getItem it + q)

/-- `inv.cash += p`: credit cash. -/
def creditCash (inv : Inventory) (p : ℚ) : Inventory :=
  { inv with cash := inv.cash + p }

/-- The seller-side mutation of `evaluate_buy_transaction`: debit the goods,
credit the (already reserved) cash. -/
def sellerSettle (inv : Inventory) (it : Item) (q : ℤ) (p : ℚ) : Inventory :=
  { inv.setItem it (inv.getItem it - q) with cash := inv.cash + p }

/-- `Market._update_inventory`: with a buyer inventory present it settles a
sell transaction (buyer pays cash and receives the goods, supplier receives
the cash); without one it reserves the offered goods from the supplier. -/
def update_inventory (supplier_inventory : Inventory) (offer : OfferDraft)
    (buyer_inventory : Option Inventory) : Inventory × Option Inventory :=
  match buyer_inventory with
  | some binv =>
    let binv' := { creditItem binv offer.item offer.quantity with cash := binv.cash - offer.price }
    (creditCash supplier_inventory offer.price, some binv')
  | none =>
    (supplier_inventory.setItem offer.item
        (supplier_inventory.getItem offer.item - offer.quantity), none)

/-- `Market.create_offer` (sell-offer creation): validates the supplier holds
enough of the good, reserves the goods, issues a fresh id and inserts the
tracked offer. -/
def create_offer (s : MarketState) (offer : OfferDraft) : MarketState × Option Err :=
  match lookupAgent s.agents offer.supplier with
  | none => (s, some .keyError)
  | some sup =>
    if sup.inventory.getItem offer.item < offer.quantity then
      (s, some .insufficientGoods)
    else
      let agents1 := updateAgent s.agents offer.supplier (fun a =>
        { a with inventory := (update_inventory a.inventory offer none).1 })
      let tracked : TrackedOffer := { offer with id := s.next_id }
      ({ s with agents := agents1,
                repository := updateRepository s.repository tracked,
                next_id := s.next_id + 1 }, none)

/-- `Market.create_buy_offer`: validates the creator's cash covers the price,
reserves the cash, issues a fresh id and inserts the tracked offer. -/
def create_buy_offer (s : MarketState) (offer : OfferDraft) : MarketState × Option Err :=
  match lookupAgent s.agents offer.supplier with
  | none => (s, some .keyError)
  | some buyer =>
    if buyer.inventory.cash < offer.price then
      (s, some .insufficientFunds)
    else
      let agents1 := updateAgent s.agents offer.supplier (fun a =>
        { a with inventory := { a.inventory with cash := a.inventory.cash - offer.price } })
      let tracked : TrackedOffer := { offer with id := s.next_id }
      ({ s with agents := agents1,
                repository := updateRepository s.repository tracked,
                next_id := s.next_id + 1 }, none)

/-- `Market.evaluate_sell_transaction` (a buyer accepts an offer by id):
existence check, self-trade check, cash check, then settlement through
`update_inventory`, removal of the offer and appending of the trade record.
Note the source performs no offer-direction check on this path. -/
def evaluate_sell_transaction (s : MarketState) (buyer_name : String) (offer_id : ℕ) :
    MarketState × Option Err :=
  match findOffer s.repository offer_id with
  | none => (s, some .offerNotFound)
  | some offer =>
    if buyer_name = offer.supplier then (s, some .selfTrade)
    else
      match lookupAgent s.agents buyer_name with
      | none => (s, some .keyError)
      | some buyer =>
        match lookupAgent s.agents offer.supplier with
        | none => (s, some .keyError)
        | some sup =>
          if buyer.inventory.cash < offer.price then (s, some .insufficientFunds)
          else
            let settled := update_inventory sup.inventory offer.toOfferDraft
              (some buyer.inventory)
            let agents1 := updateAgent s.agents buyer_name (fun a =>
              { a with inventory := settled.2.getD a.inventory })
            let agents2 := updateAgent agents1 offer.supplier (fun a =>
              { a with inventory := settled.1 })
            let trade : UnitTrade :=
              { supplier := offer.supplier, buyer := buyer_name, item := offer.item,
                quantity := offer.quantity, price := offer.price }
            ({ s with agents := agents2,
                      repository := removeOffer s.repository offer.id,
                      trade_history := s.trade_history ++ [trade] }, none)

/-- `Market.evaluate_buy_transaction` (a seller accepts a buy offer by id):
existence, direction, self-trade and goods checks, then the seller's goods are
debited, the seller is credited the reserved cash, the creator receives the
goods, the offer is removed and the trade appended. -/
def evaluate_buy_transaction (s : MarketState) (seller_name : String) (offer_id : ℕ) :
    MarketState × Option Err :=
  match findOffer s.repository offer_id with
  | none => (s, some .offerNotFound)
  | some offer =>
    if offer.offer_type ≠ OfferType.buy then (s, some .wrongDirection)
    else if seller_name = offer.supplier then (s, some .selfTrade)
    else
      match lookupAgent s.agents seller_name with
      | none => (s, some .keyError)
      | some seller =>
        match lookupAgent s.agents offer.supplier with
        | none => (s, some .keyError)
        | some _ =>
          if seller.inventory.getItem offer.item < offer.quantity then
            (s, some .insufficientGoods)
          else
            let agents1 := updateAgent s.agents seller_name (fun a =>
              { a with inventory := sellerSettle a.inventory offer.item offer.quantity offer.price })
            let agents2 := updateAgent agents1 offer.supplier (fun a =>
              { a with inventory := creditItem a.inventory offer.item offer.quantity })
            let trade : UnitTrade :=
              { supplier := seller_name, buyer := offer.supplier, item := offer.item,
                quantity := offer.quantity, price := offer.price }
            ({ s with agents := agents2,
                      repository := removeOffer s.repository offer.id,
                      trade_history := s.trade_history ++ [trade] }, none)

/-- `cancel_offer`'s / `delete_agent_offers`'s asset restitution for one offer:
goods for a sell offer, cash for a buy offer. -/
def returnOffer (inv : Inventory) (o : TrackedOffer) : Inventory :=
  match o.offer_type with
  | .sell => creditItem inv o.item o.quantity
  | .buy => creditCash inv o.price

/-- `Market.cancel_offer`: existence and ownership checks, then the reserved
asset (goods of a sell offer, cash of a buy offer) is returned and the offer
removed. -/
def cancel_offer (s : MarketState) (agent_name : String) (offer_id : ℕ) :
    MarketState × Option Err :=
  match findOffer s.repository offer_id with
  | none => (s, some .offerNotFound)
  | some offer =>
    if offer.supplier ≠ agent_name then (s, some .notOwner)
    else
      match lookupAgent s.agents agent_name with
      | none => (s, some .keyError)
      | some _ =>
        let agents1 := updateAgent s.agents agent_name (fun a =>
          { a with inventory := returnOffer a.inventory offer })
        ({ s with agents := agents1,
                  repository := removeOffer s.repository offer_id }, none)

/-- `Market.delete_agent_offers`: removes every offer owned by the agent and,
when `return_assets` is true, credits each reservation back to that agent's
inventory in insertion order. -/
def delete_agent_offers (s : MarketState) (agent_name : String) (return_assets : Bool) :
    MarketState :=
  let owned := s.repository.filter (fun o => o.supplier = agent_name)
  let agents1 :=
    if return_assets then
      owned.foldl (fun ag o =>
        updateAgent ag agent_name (fun a => { a with inventory := returnOffer a.inventory o }))
        s.agents
    else s.agents
  { s with agents := agents1,
           repository := s.repository.filter (fun o => ¬ o.supplier = agent_name) }

/-- `Agent.collect_operational_payment`: zero the cash and report failure when
it does not cover the operational cost, otherwise debit the cost. -/
def collect_operational_payment (a : Agent) : Agent × Bool :=
  if a.inventory.cash < a.operational_cost then
    ({ a with inventory := { a.inventory with cash := 0 } }, false)
  else
    ({ a with inventory := { a.inventory with cash := a.inventory.cash - a.operational_cost } },
     true)

/-- The scheduler state of src/simulation/main.py `Simulation`: the shared
market (which owns the agents dictionary) and the terminal lists. -/
structure SimState where
  market : MarketState
  bankrupt : List String
  dead : List String
deriving DecidableEq, Repr

/-- `Simulation._collect_agent_payment`: collect the operational cost right
after the agent's turn; on failure mark the agent non-alive, purge its offers
(with restitution, the `delete_agent_offers` default) and record bankruptcy. -/
def collect_agent_payment (st : SimState) (name : String) : SimState :=
  match lookupAgent st.market.agents name with
  | none => st
  | some a =>
    let pr := collect_operational_payment a
    let m1 := { st.market with agents := updateAgent st.market.agents name (fun _ => pr.1) }
    if pr.2 then { st with market := m1 }
    else
      let m2 := { m1 with agents := updateAgent m1.agents name (fun b => { b with is_alive := false }) }
      { st with market := delete_agent_offers m2 name true,
                bankrupt := st.bankrupt ++ [name] }

/-- The death check of `Simulation._drain_energy`'s body: when the (already
decremented) energy is exactly zero, mark the agent non-alive, purge its
offers with restitution and record it dead. -/
def drainDeath (st : SimState) (name : String) (a1 : Agent) : SimState :=
  if a1.energy = 0 then
    let mkt :=
      { st.market with
          agents := updateAgent st.market.agents name (fun b => { b with is_alive := false }) }
    { st with market := delete_agent_offers mkt name true, dead := st.dead ++ [name] }
  else st

/-- The apple-conversion check of `Simulation._drain_energy`'s body: reading
the (possibly just purged) agent, consume one apple and restore the fixed
energy amount when energy is below the threshold and at least one apple is
held.  The check is not gated on being alive. -/
def drainConvert (st : SimState) (name : String) : SimState :=
  match lookupAgent st.market.agents name with
  | none => st
  | some b =>
    if b.energy < general_settings.energy_qty_to_consume_apple ∧ b.inventory.apple ≠ 0 then
      { st with market := { st.market with agents := updateAgent st.market.agents name (fun c =>
          { c with energy := c.energy + general_settings.energy_qty_restored_by_apple,
                   inventory := { c.inventory with apple := c.inventory.apple - 1 } }) } }
    else st

/-- The body of `Simulation._drain_energy` for one agent of the queue:
decrement energy, then the death check, then the conversion check. -/
def drainOne (st : SimState) (name : String) : SimState :=
  match lookupAgent st.market.agents name with
  | none => st
  | some a =>
    let a1 := { a with energy := a.energy - 1 }
    let st1 : SimState :=
      { st with market := { st.market with agents := updateAgent st.market.agents name (fun _ => a1) } }
    drainConvert (drainDeath st1 name a1) name

/-- `Simulation._drain_energy` over the round's queue, in queue order. -/
def drain_energy (st : SimState) (queue : List String) : SimState :=
  queue.foldl drainOne st

/-- `agent.is_alive` as read through the agents dictionary (queue members are
always dictionary entries). -/
def agentAlive (st : SimState) (n : String) : Bool :=
  match lookupAgent st.market.agents n with
  | some a => a.is_alive
  | none => false

/-- The only failure the modelled round loop can raise:
`ZeroDivisionError` from `Simulation._save_round_metrics`. -/
inductive RunErr where
  | zeroDivision
deriving DecidableEq, Repr

/-- Python `history[-k:]` for `0 ≤ k ≤ len(history)`: the last `k` elements,
except that `k = 0` yields the whole list (`[-0:]` is `[0:]`). -/
def lastSlice (hist : List UnitTrade) (k : ℕ) : List UnitTrade :=
  if k = 0 then hist else hist.drop (hist.length - k)

/-- The `items_info` accumulator of `Simulation._save_round_metrics`: total
price and trade count for one item over the given trades. -/
def itemsInfo (trades : List UnitTrade) (it : Item) : ℚ × ℕ :=
  trades.foldl (fun acc t => if t.item = it then (acc.1 + t.price, acc.2 + 1) else acc) (0, 0)

/-- `Simulation._save_round_metrics`: the per-item average trade price over
the given trades; dividing by a zero trade count raises `ZeroDivisionError`. -/
def save_round_metrics (trades : List UnitTrade) : Except RunErr (List (Item × ℚ)) :=
  if (itemsInfo trades .apple).2 = 0 ∨ (itemsInfo trades .chip).2 = 0 ∨
      (itemsInfo trades .gold).2 = 0 then
    .error .zeroDivision
  else
    .ok [(.apple, (itemsInfo trades .apple).1 / (itemsInfo trades .apple).2),
         (.chip, (itemsInfo trades .chip).1 / (itemsInfo trades .chip).2),
         (.gold, (itemsInfo trades .gold).1 / (itemsInfo trades .gold).2)]

/-- One round of `Simulation.run` given the already-shuffled queue: each agent
takes its externally-decided turn (`turnFn`, the opaque policy acting through
the ledger tools) followed by payment collection; then the energy-decay pass,
then the round metrics (which may raise). -/
def runRound (turnFn : ℕ → String → SimState → SimState) (st : SimState)
    (queue : List String) (i : ℕ) : Except RunErr (SimState × List (Item × ℚ)) :=
  let tradesBefore := st.market.trade_history.length
  let st1 := queue.foldl (fun acc name => collect_agent_payment (turnFn i name acc) name) st
  let st2 := drain_energy st1 queue
  let k := st2.market.trade_history.length - tradesBefore
  match save_round_metrics (lastSlice st2.market.trade_history k) with
  | .error e => .error e
  | .ok m => .ok (st2, m)

/-- The round loop of `Simulation.run` from round `i` with `rem` rounds left:
filter the queue to living agents, shuffle it (`shuffleFn`, the external
randomness), run the round, record its metrics and continue. -/
def runFrom (turnFn : ℕ → String → SimState → SimState)
    (shuffleFn : ℕ → List String → List String) (st : SimState) (queue : List String)
    (i : ℕ) (acc : List (ℕ × List (Item × ℚ))) :
    ℕ → Except RunErr (SimState × List (ℕ × List (Item × ℚ)))
  | 0 => .ok (st, acc)
  | rem + 1 =>
    let q := shuffleFn i (queue.filter (fun n => agentAlive st n))
    match runRound turnFn st q i with
    | .error e => .error e
    | .ok (st', m) => runFrom turnFn shuffleFn st' q (i + 1) (acc ++ [(i, m)]) rem

/-- `Simulation.run`: execute the configured number of rounds over the initial
agent queue. -/
def runSimulation (turnFn : ℕ → String → SimState → SimState)
    (shuffleFn : ℕ → List String → List String) (st : SimState) (queue : List String)
    (total_rounds : ℕ) : Except RunErr (SimState × List (ℕ × List (Item × ℚ))) :=
  runFrom turnFn shuffleFn st queue 1 [] total_rounds

/-- The ledger operations of spec section 4.2 as invoked through the trading
tools (src/utils/tools_factory.py): the tools fix the offer direction of the
drafts they build, `sell` for `create_public_offer` and `buy` for
`create_buy_offer`. -/
inductive LedgerOp where
  | createSell (supplier : String) (it : Item) (qty : ℤ) (price : ℚ) (msg : String)
  | createBuy (buyer : String) (it : Item) (qty : ℤ) (price : ℚ) (msg : String)
  | acceptSell (buyer : String) (offer_id : ℕ)
  | acceptBuy (seller : String) (offer_id : ℕ)
  | cancel (owner : String) (offer_id : ℕ)
  | purgeRestitution (name : String)
deriving DecidableEq, Repr

/-- Apply a ledger operation; the resulting state is paired with the raised
error, if any (a raised error is reported to the policy, the state stands). -/
def applyLedgerOp (s : MarketState) : LedgerOp → MarketState × Option Err
  | .createSell sup it q p m => create_offer s ⟨sup, it, q, p, m, .sell⟩
  | .createBuy buyer it q p m => create_buy_offer s ⟨buyer, it, q, p, m, .buy⟩
  | .acceptSell buyer i => evaluate_sell_transaction s buyer i
  | .acceptBuy seller i => evaluate_buy_transaction s seller i
  | .cancel owner i => cancel_offer s owner i
  | .purgeRestitution n => (delete_agent_offers s n true, none)

/-- A scheduler-level step: a ledger operation requested by some turn, a
payment collection, or an energy-decay pass over a queue. -/
inductive SimOp where
  | ledgerStep (op : LedgerOp)
  | collectStep (name : String)
  | drainStep (queue : List String)
deriving DecidableEq, Repr

/-- Apply one scheduler-level step. -/
def applySimOp (st : SimState) : SimOp → SimState
  | .ledgerStep op => { st with market := (applyLedgerOp st.market op).1 }
  | .collectStep n => collect_agent_payment st n
  | .drainStep q => drain_energy st q

/-- Drafts admitted by pydantic validation carry a positive integer quantity
and a positive price (`PositiveInt` / `PositiveFloat` in src/schemas/offer.py). -/
def LedgerOp.Valid : LedgerOp → Prop
  | .createSell _ _ q p _ => 0 < q ∧ 0 < p
  | .createBuy _ _ q p _ => 0 < q ∧ 0 < p
  | _ => True

/-- Validity of a scheduler-level step: any embedded draft is pydantic-valid. -/
def SimOp.Valid : SimOp → Prop
  | .ledgerStep op => op.Valid
  | _ => True

/-- Sum of an agent valuation over the agents dictionary. -/
def sumA {M : Type} [AddCommGroup M] (g : Agent → M) (m : AgentMap) : M :=
  (m.map (fun p => g p.2)).sum

/-- Sum of an offer valuation over a repository. -/
def sumO {M : Type} [AddCommGroup M] (f : TrackedOffer → M) (l : List TrackedOffer) : M :=
  (l.map f).sum

/-- Cash reserved by one open offer: a buy offer holds its price. -/
def cashVal (o : TrackedOffer) : ℚ :=
  if o.offer_type = OfferType.buy then o.price else 0

/-- Units of a good reserved by one open offer: a sell offer of that good
holds its quantity. -/
def goodVal (it : Item) (o : TrackedOffer) : ℤ :=
  if o.offer_type = OfferType.sell ∧ o.item = it then o.quantity else 0

/-- Total cash held across all live inventories. -/
def heldCash (m : AgentMap) : ℚ :=
  sumA (fun a => a.inventory.cash) m

/-- Total units of a good held across all live inventories. -/
def heldGood (it : Item) (m : AgentMap) : ℤ :=
  sumA (fun a => a.inventory.getItem it) m

/-- Cash held plus cash reserved in open buy offers: the conserved cash
quantity of spec section 4.2. -/
def conservedCash (s : MarketState) : ℚ :=
  heldCash s.agents + sumO cashVal s.repository

/-- Units held plus units reserved in open sell offers: the conserved goods
quantity of spec section 4.2. -/
def conservedGood (it : Item) (s : MarketState) : ℤ :=
  heldGood it s.agents + sumO (goodVal it) s.repository

/-- Every open offer's supplier is a key of the agents dictionary (offers are
only ever created for dictionary members). -/
def SuppliersPresent (s : MarketState) : Prop :=
  ∀ o ∈ s.repository, (lookupAgent s.agents o.supplier).isSome

/-- All repository ids are below the serial counter's next value (the id
generator has issued every id in the book and never repeats one). -/
def FreshIds (s : MarketState) : Prop :=
  ∀ o ∈ s.repository, o.id < s.next_id

/-- Every field of an inventory is non-negative (the pydantic `ge=0` bounds
of src/schemas/inventory.py). -/
def NonnegInv (inv : Inventory) : Prop :=
  0 ≤ inv.cash ∧ 0 ≤ inv.apple ∧ 0 ≤ inv.chip ∧ 0 ≤ inv.gold

/-- Every agent of the dictionary has a non-negative inventory. -/
def AgentsNonneg (m : AgentMap) : Prop :=
  ∀ p ∈ m, NonnegInv (p.2).inventory

/-- A tracked offer that passed pydantic validation at admission. -/
def ValidOffer (o : TrackedOffer) : Prop :=
  0 < o.quantity ∧ 0 < o.price

/-- Every open offer passed pydantic validation. -/
def OffersValid (l : List TrackedOffer) : Prop :=
  ∀ o ∈ l, ValidOffer o

/-- The market-level well-formedness invariant used for non-negativity. -/
def MarketInv (s : MarketState) : Prop :=
  AgentsNonneg s.agents ∧ OffersValid s.repository

/-- The scheduler-level well-formedness invariant. -/
def SimInv (st : SimState) : Prop :=
  MarketInv st.market

/-! ### Basic lemmas about the data-model accessors -/

/-- Reading a good after writing one. -/
theorem getItem_setItem (inv : Inventory) (i j : Item) (v : ℤ) :
    (inv.setItem i v).getItem j = if i = j then v else inv.getItem j := by
  cases i <;> cases j <;> simp [Inventory.getItem, Inventory.setItem]

/-- Writing a good leaves cash untouched. -/
@[simp] theorem cash_setItem (inv : Inventory) (i : Item) (v : ℤ) :
    (inv.setItem i v).cash = inv.cash := by
  cases i <;> rfl

/-- Cash credit leaves every good untouched. -/
@[simp] theorem getItem_creditCash (inv : Inventory) (p : ℚ) (j : Item) :
    (creditCash inv p).getItem j = inv.getItem j := by
  cases j <;> rfl

@[simp] theorem cash_creditCash (inv : Inventory) (p : ℚ) :
    (creditCash inv p).cash = inv.cash + p := rfl

@[simp] theorem cash_creditItem (inv : Inventory) (i : Item) (q : ℤ) :
    (creditItem inv i q).cash = inv.cash := by
  simp [creditItem]

theorem getItem_creditItem (inv : Inventory) (i j : Item) (q : ℤ) :
    (creditItem inv i q).getItem j =
      inv.getItem j + (if i = j then q else 0) := by
  simp only [creditItem, getItem_setItem]
  by_cases h : i = j
  · subst h; simp
  · simp [h]

/-- A non-negative write keeps the inventory non-negative. -/
theorem nonnegInv_setItem {inv : Inventory} {v : ℤ} (i : Item)
    (h : NonnegInv inv) (hv : 0 ≤ v) : NonnegInv (inv.setItem i v) := by
  cases i <;> simp only [NonnegInv, Inventory.setItem] at h ⊢ <;> tauto

/-- Every good of a non-negative inventory is non-negative. -/
theorem getItem_nonneg {inv : Inventory} (i : Item) (h : NonnegInv inv) :
    0 ≤ inv.getItem i := by
  cases i <;> simp only [NonnegInv, Inventory.getItem] at h ⊢ <;> tauto

/-! ### Lemmas about the agents dictionary -/

/-- Lookup after an in-place update. -/
theorem lookupAgent_update (m : AgentMap) (n n' : String) (f : Agent → Agent) :
    lookupAgent (updateAgent m n f) n' =
      if n' = n then (lookupAgent m n).map f else lookupAgent m n' := by
  induction m with
  | nil => by_cases hn : n' = n <;> simp [lookupAgent, updateAgent, hn]
  | cons p rest ih =>
    obtain ⟨k, b⟩ := p
    by_cases hk : k = n
    · subst hk
      by_cases hn : n' = k
      · subst hn
        simp [lookupAgent, updateAgent]
      · simp [lookupAgent, updateAgent, hn, Ne.symm hn]
    · by_cases hn : n' = n
      · subst hn
        have hkn : ¬ k = n' := hk
        simp [lookupAgent, updateAgent, hk, hkn, ih]
      · by_cases hkn : k = n'
        · subst hkn
          simp [lookupAgent, updateAgent, hk, hn]
        · simp [lookupAgent, updateAgent, hk, hkn, hn, ih]

/-- Lookup at the updated key. -/
theorem lookupAgent_update_self {m : AgentMap} {n : String} {a : Agent} (f : Agent → Agent)
    (h : lookupAgent m n = some a) :
    lookupAgent (updateAgent m n f) n = some (f a) := by
  simp [lookupAgent_update, h]

/-- Lookup at a different key. -/
theorem lookupAgent_update_ne {m : AgentMap} {n n' : String} (f : Agent → Agent)
    (h : n' ≠ n) :
    lookupAgent (updateAgent m n f) n' = lookupAgent m n' := by
  simp [lookupAgent_update, h]

/-- Updating an absent key is a no-op. -/
theorem updateAgent_of_lookup_none {m : AgentMap} {n : String} (f : Agent → Agent)
    (h : lookupAgent m n = none) : updateAgent m n f = m := by
  induction m with
  | nil => rfl
  | cons p rest ih =>
    obtain ⟨k, b⟩ := p
    by_cases hk : k = n <;> simp_all [lookupAgent, updateAgent, hk]

@[simp] theorem sumA_nil {M : Type} [AddCommGroup M] (g : Agent → M) :
    sumA g ([] : AgentMap) = 0 := rfl

@[simp] theorem sumA_cons {M : Type} [AddCommGroup M] (g : Agent → M) (k : String)
    (b : Agent) (rest : AgentMap) :
    sumA g ((k, b) :: rest) = g b + sumA g rest := by
  simp [sumA]

/-- Effect of an in-place update on an agent-valuation sum. -/
theorem sumA_update {M : Type} [AddCommGroup M] (g : Agent → M) {m : AgentMap}
    {n : String} {a : Agent} (f : Agent → Agent) (h : lookupAgent m n = some a) :
    sumA g (updateAgent m n f) = sumA g m + (g (f a) - g a) := by
  induction m with
  | nil => simp [lookupAgent] at h
  | cons p rest ih =>
    obtain ⟨k, b⟩ := p
    by_cases hk : k = n
    · simp only [lookupAgent, hk, if_pos] at h
      obtain rfl : b = a := by simp at h; exact h
      simp [updateAgent, hk]
      abel
    · simp only [lookupAgent, hk, if_neg, ite_false] at h
      simp [updateAgent, hk, ih h]
      abel

/-- An in-place update preserves a pointwise property of the entries when the
updated entry (the one lookup returns) keeps it. -/
theorem updateAgent_pred {P : Agent → Prop} {m : AgentMap} {n : String}
    (f : Agent → Agent) (h : ∀ p ∈ m, P p.2)
    (hf : ∀ a, lookupAgent m n = some a → P (f a)) :
    ∀ p ∈ updateAgent m n f, P p.2 := by
  induction m with
  | nil => simp [updateAgent]
  | cons p rest ih =>
    obtain ⟨k, b⟩ := p
    by_cases hk : k = n
    · intro q hq
      simp only [updateAgent, hk, if_pos] at hq
      rcases List.mem_cons.mp hq with hq | hq
      · subst hq
        exact hf b (by simp [lookupAgent, hk])
      · exact h _ (List.mem_cons_of_mem _ hq)
    · intro q hq
      simp only [updateAgent, hk, ite_false, if_neg] at hq
      rcases List.mem_cons.mp hq with hq | hq
      · subst hq; exact h _ (List.mem_cons_self _ _)
      · exact ih (fun p hp => h p (List.mem_cons_of_mem _ hp))
          (fun a ha => hf a (by simpa [lookupAgent, hk] using ha)) _ hq

/-! ### Lemmas about the offer repository -/

/-- A found offer is a member and bears the looked-up id. -/
theorem findOffer_mem {l : List TrackedOffer} {i : ℕ} {o : TrackedOffer}
    (h : findOffer l i = some o) : o ∈ l ∧ o.id = i := by
  induction l with
  | nil => simp [findOffer] at h
  | cons x rest ih =>
    by_cases hx : x.id = i
    · simp only [findOffer, hx, if_pos] at h
      obtain rfl : x = o := by simp at h; exact h
      exact ⟨List.mem_cons_self _ _, hx⟩
    · simp only [findOffer, hx, ite_false, if_neg] at h
      obtain ⟨hm, hi⟩ := ih h
      exact ⟨List.mem_cons_of_mem _ hm, hi⟩

/-- Removal keeps only original members. -/
theorem mem_removeOffer {l : List TrackedOffer} {i : ℕ} {o : TrackedOffer}
    (h : o ∈ removeOffer l i) : o ∈ l := by
  induction l with
  | nil => simp [removeOffer] at h
  | cons x rest ih =>
    by_cases hx : x.id = i
    · simp only [removeOffer, hx, if_pos] at h
      exact List.mem_cons_of_mem _ h
    · simp only [removeOffer, hx, ite_false, if_neg] at h
      rcases List.mem_cons.mp h with h | h
      · subst h; exact List.mem_cons_self _ _
      · exact List.mem_cons_of_mem _ (ih h)

@[simp] theorem sumO_nil {M : Type} [AddCommGroup M] (f : TrackedOffer → M) :
    sumO f ([] : List TrackedOffer) = 0 := rfl

@[simp] theorem sumO_cons {M : Type} [AddCommGroup M] (f : TrackedOffer → M)
    (o : TrackedOffer) (l : List TrackedOffer) :
    sumO f (o :: l) = f o + sumO f l := by
  simp [sumO]

@[simp] theorem sumO_append {M : Type} [AddCommGroup M] (f : TrackedOffer → M)
    (l1 l2 : List TrackedOffer) :
    sumO f (l1 ++ l2) = sumO f l1 + sumO f l2 := by
  simp [sumO]

/-- Removing the found offer subtracts its valuation from the sum. -/
theorem sumO_removeOffer {M : Type} [AddCommGroup M] (f : TrackedOffer → M)
    {l : List TrackedOffer} {i : ℕ} {o : TrackedOffer} (h : findOffer l i = some o) :
    sumO f (removeOffer l i) = sumO f l - f o := by
  induction l with
  | nil => simp [findOffer] at h
  | cons x rest ih =>
    by_cases hx : x.id = i
    · simp only [findOffer, hx, if_pos] at h
      obtain rfl : x = o := by simp at h; exact h
      simp [removeOffer, hx]
    · simp only [findOffer, hx, ite_false, if_neg] at h
      simp [removeOffer, hx, ih h]
      abel

/-- Splitting an offer-valuation sum along a decidable filter. -/
theorem sumO_filter_split {M : Type} [AddCommGroup M] (f : TrackedOffer → M)
    (P : TrackedOffer → Prop) [DecidablePred P] (l : List TrackedOffer) :
    sumO f (l.filter (fun o => P o)) + sumO f (l.filter (fun o => ¬ P o)) = sumO f l := by
  induction l with
  | nil => simp
  | cons x rest ih =>
    by_cases hx : P x <;> simp [List.filter_cons, hx, ← ih] <;> abel

/-- A fresh id turns repository assignment into an append. -/
theorem updateRepository_fresh {repo : List TrackedOffer} {t : TrackedOffer}
    (h : ∀ o ∈ repo, o.id ≠ t.id) : updateRepository repo t = repo ++ [t] := by
  have hany : ¬ (repo.any (fun o => o.id = t.id) = true) := by
    rw [List.any_eq_true]
    rintro ⟨o, ho, hid⟩
    exact h o ho (by simpa using hid)
  unfold updateRepository
  rw [if_neg hany]

/-- Finding a freshly appended offer. -/
theorem findOffer_append_fresh {l : List TrackedOffer} {t : TrackedOffer} {i : ℕ}
    (h : ∀ o ∈ l, o.id ≠ i) (ht : t.id = i) : findOffer (l ++ [t]) i = some t := by
  induction l with
  | nil => simp [findOffer, ht]
  | cons x rest ih =>
    have hx : x.id ≠ i := h x (List.mem_cons_self _ _)
    simp only [List.cons_append, findOffer, hx, ite_false, if_neg]
    exact ih (fun o ho => h o (List.mem_cons_of_mem _ ho))

/-- A filter that keeps nothing. -/
theorem filter_eq_nil_of_none {l : List TrackedOffer} {P : TrackedOffer → Prop}
    [DecidablePred P] (h : ∀ o ∈ l, ¬ P o) : l.filter (fun o => P o) = [] := by
  induction l with
  | nil => rfl
  | cons x rest ih =>
    have hx : ¬ P x := h x (List.mem_cons_self _ _)
    simp [List.filter_cons, hx, ih (fun o ho => h o (List.mem_cons_of_mem _ ho))]

/-- A filter that keeps everything. -/
theorem filter_eq_self_of_all {l : List TrackedOffer} {P : TrackedOffer → Prop}
    [DecidablePred P] (h : ∀ o ∈ l, P o) : l.filter (fun o => P o) = l := by
  induction l with
  | nil => rfl
  | cons x rest ih =>
    have hx : P x := h x (List.mem_cons_self _ _)
    simp [List.filter_cons, hx, ih (fun o ho => h o (List.mem_cons_of_mem _ ho))]

/-! ### Shape lemmas for the ledger operations -/

/-- The buyer-side mutation of `_update_inventory` in a settled sell
transaction: pay the price, receive the goods. -/
def buyerSettle (inv : Inventory) (it : Item) (q : ℤ) (p : ℚ) : Inventory :=
  { creditItem inv it q with cash := inv.cash - p }

/-- `_update_inventory` with a buyer present, in settled form. -/
theorem update_inventory_some (sinv binv : Inventory) (offer : OfferDraft) :
    update_inventory sinv offer (some binv) =
      (creditCash sinv offer.price,
       some (buyerSettle binv offer.item offer.quantity offer.price)) := rfl

/-- Every operation either succeeds or leaves the state untouched: in the
source all raises precede all mutations. -/
theorem create_offer_shape (s : MarketState) (offer : OfferDraft) :
    (create_offer s offer).2 = none ∨ (create_offer s offer).1 = s := by
  unfold create_offer
  cases hs : lookupAgent s.agents offer.supplier with
  | none => right; rfl
  | some sup =>
    dsimp only
    by_cases hq : sup.inventory.getItem offer.item < offer.quantity
    · rw [if_pos hq]; right; rfl
    · rw [if_neg hq]; left; rfl

theorem create_buy_offer_shape (s : MarketState) (offer : OfferDraft) :
    (create_buy_offer s offer).2 = none ∨ (create_buy_offer s offer).1 = s := by
  unfold create_buy_offer
  cases hs : lookupAgent s.agents offer.supplier with
  | none => right; rfl
  | some buyer =>
    dsimp only
    by_cases hp : buyer.inventory.cash < offer.price
    · rw [if_pos hp]; right; rfl
    · rw [if_neg hp]; left; rfl

theorem evaluate_sell_shape (s : MarketState) (b : String) (i : ℕ) :
    (evaluate_sell_transaction s b i).2 = none ∨ (evaluate_sell_transaction s b i).1 = s := by
  unfold evaluate_sell_transaction
  cases hf : findOffer s.repository i with
  | none => right; rfl
  | some o =>
    dsimp only
    by_cases h1 : b = o.supplier
    · rw [if_pos h1]; right; rfl
    · rw [if_neg h1]
      cases hb : lookupAgent s.agents b with
      | none => right; rfl
      | some buyer =>
        cases hs2 : lookupAgent s.agents o.supplier with
        | none => right; rfl
        | some sup =>
          dsimp only
          by_cases hp : buyer.inventory.cash < o.price
          · rw [if_pos hp]; right; rfl
          · rw [if_neg hp]; left; rfl

theorem evaluate_buy_shape (s : MarketState) (b : String) (i : ℕ) :
    (evaluate_buy_transaction s b i).2 = none ∨ (evaluate_buy_transaction s b i).1 = s := by
  unfold evaluate_buy_transaction
  cases hf : findOffer s.repository i with
  | none => right; rfl
  | some o =>
    dsimp only
    by_cases hd : o.offer_type ≠ OfferType.buy
    · rw [if_pos hd]; right; rfl
    · rw [if_neg hd]
      by_cases h1 : b = o.supplier
      · rw [if_pos h1]; right; rfl
      · rw [if_neg h1]
        cases hb : lookupAgent s.agents b with
        | none => right; rfl
        | some seller =>
          cases hs2 : lookupAgent s.agents o.supplier with
          | none => right; rfl
          | some sup =>
            dsimp only
            by_cases hq : seller.inventory.getItem o.item < o.quantity
            · rw [if_pos hq]; right; rfl
            · rw [if_neg hq]; left; rfl

theorem cancel_offer_shape (s : MarketState) (n : String) (i : ℕ) :
    (cancel_offer s n i).2 = none ∨ (cancel_offer s n i).1 = s := by
  unfold cancel_offer
  cases hf : findOffer s.repository i with
  | none => right; rfl
  | some o =>
    dsimp only
    by_cases hown : o.supplier ≠ n
    · rw [if_pos hown]; right; rfl
    · rw [if_neg hown]
      cases ha : lookupAgent s.agents n with
      | none => right; rfl
      | some a => left; rfl

/-- Accepting an absent offer id on the sell path. -/
theorem evaluate_sell_notFound {s : MarketState} {b : String} {i : ℕ}
    (h : findOffer s.repository i = none) :
    evaluate_sell_transaction s b i = (s, some .offerNotFound) := by
  unfold evaluate_sell_transaction
  rw [h]

/-- Accepting an absent offer id on the buy path. -/
theorem evaluate_buy_notFound {s : MarketState} {b : String} {i : ℕ}
    (h : findOffer s.repository i = none) :
    evaluate_buy_transaction s b i = (s, some .offerNotFound) := by
  unfold evaluate_buy_transaction
  rw [h]

/-- Successful sell-offer creation, in settled form. -/
theorem create_offer_success {s : MarketState} {offer : OfferDraft} {sup : Agent}
    (hs : lookupAgent s.agents offer.supplier = some sup)
    (hq : ¬ sup.inventory.getItem offer.item < offer.quantity) :
    create_offer s offer =
      ({ s with
          agents := updateAgent s.agents offer.supplier (fun a =>
            { a with inventory := (update_inventory a.inventory offer none).1 }),
          repository := updateRepository s.repository { offer with id := s.next_id },
          next_id := s.next_id + 1 }, none) := by
  unfold create_offer
  simp only [hs]
  rw [if_neg hq]

/-- Successful buy-offer creation, in settled form. -/
theorem create_buy_offer_success {s : MarketState} {offer : OfferDraft} {buyer : Agent}
    (hs : lookupAgent s.agents offer.supplier = some buyer)
    (hp : ¬ buyer.inventory.cash < offer.price) :
    create_buy_offer s offer =
      ({ s with
          agents := updateAgent s.agents offer.supplier (fun a =>
            { a with inventory := { a.inventory with cash := a.inventory.cash - offer.price } }),
          repository := updateRepository s.repository { offer with id := s.next_id },
          next_id := s.next_id + 1 }, none) := by
  unfold create_buy_offer
  simp only [hs]
  rw [if_neg hp]

/-- Successful sell-path acceptance, in settled form.  No direction check is
made: this applies verbatim to an offer of either direction. -/
theorem evaluate_sell_success {s : MarketState} {b : String} {i : ℕ} {o : TrackedOffer}
    {buyer sup : Agent}
    (hf : findOffer s.repository i = some o) (hself : ¬ b = o.supplier)
    (hb : lookupAgent s.agents b = some buyer)
    (hs : lookupAgent s.agents o.supplier = some sup)
    (hp : ¬ buyer.inventory.cash < o.price) :
    evaluate_sell_transaction s b i =
      ({ s with
          agents := updateAgent
            (updateAgent s.agents b (fun a =>
              { a with inventory := buyerSettle buyer.inventory o.item o.quantity o.price }))
            o.supplier (fun a => { a with inventory := creditCash sup.inventory o.price }),
          repository := removeOffer s.repository o.id,
          trade_history := s.trade_history ++
            [{ supplier := o.supplier, buyer := b, item := o.item,
               quantity := o.quantity, price := o.price }] }, none) := by
  unfold evaluate_sell_transaction
  simp only [hf]
  rw [if_neg hself]
  simp only [hb, hs]
  rw [if_neg hp]
  simp only [update_inventory_some, Option.getD_some]

/-- Successful buy-path acceptance, in settled form. -/
theorem evaluate_buy_success {s : MarketState} {sl : String} {i : ℕ} {o : TrackedOffer}
    {seller sup : Agent}
    (hf : findOffer s.repository i = some o) (hdir : ¬ o.offer_type ≠ OfferType.buy)
    (hself : ¬ sl = o.supplier)
    (hsl : lookupAgent s.agents sl = some seller)
    (hs : lookupAgent s.agents o.supplier = some sup)
    (hq : ¬ seller.inventory.getItem o.item < o.quantity) :
    evaluate_buy_transaction s sl i =
      ({ s with
          agents := updateAgent
            (updateAgent s.agents sl (fun a =>
              { a with inventory := sellerSettle a.inventory o.item o.quantity o.price }))
            o.supplier (fun a => { a with inventory := creditItem a.inventory o.item o.quantity }),
          repository := removeOffer s.repository o.id,
          trade_history := s.trade_history ++
            [{ supplier := sl, buyer := o.supplier, item := o.item,
               quantity := o.quantity, price := o.price }] }, none) := by
  unfold evaluate_buy_transaction
  simp only [hf]
  rw [if_neg hdir, if_neg hself]
  simp only [hsl, hs]
  rw [if_neg hq]

/-- Successful cancellation, in settled form. -/
theorem cancel_offer_success {s : MarketState} {n : String} {i : ℕ} {o : TrackedOffer}
    {a : Agent}
    (hf : findOffer s.repository i = some o) (hown : ¬ o.supplier ≠ n)
    (ha : lookupAgent s.agents n = some a) :
    cancel_offer s n i =
      ({ s with
          agents := updateAgent s.agents n (fun a =>
            { a with inventory := returnOffer a.inventory o }),
          repository := removeOffer s.repository i }, none) := by
  unfold cancel_offer
  simp only [hf]
  rw [if_neg hown]
  simp only [ha]

/-! ### Lemmas about offer purging with restitution -/

/-- Restitution credits exactly the reserved cash of the offer. -/
theorem cash_returnOffer (inv : Inventory) (o : TrackedOffer) :
    (returnOffer inv o).cash = inv.cash + cashVal o := by
  unfold returnOffer cashVal
  cases ho : o.offer_type <;> simp [ho]

/-- Restitution credits exactly the reserved units of each good. -/
theorem getItem_returnOffer (inv : Inventory) (o : TrackedOffer) (it : Item) :
    (returnOffer inv o).getItem it = inv.getItem it + goodVal it o := by
  unfold returnOffer goodVal
  cases ho : o.offer_type
  · by_cases hit : o.item = it <;> simp [ho, getItem_creditItem, hit]
  · simp [ho]

/-- Purging an agent that owns nothing in the book changes nothing. -/
theorem delete_agent_offers_no_owned {s : MarketState} {n : String} {b : Bool}
    (h : ∀ o ∈ s.repository, ¬ o.supplier = n) :
    delete_agent_offers s n b = s := by
  unfold delete_agent_offers
  rw [filter_eq_nil_of_none h, filter_eq_self_of_all h]
  cases b <;> rfl

/-- The repository after a purge: exactly the offers of other owners. -/
theorem repository_delete_agent_offers (s : MarketState) (n : String) (b : Bool) :
    (delete_agent_offers s n b).repository = s.repository.filter (fun o => ¬ o.supplier = n) :=
  rfl

/-- The purged agent after the restitution fold: its inventory has every owned
reservation credited back, everything else unchanged. -/
theorem lookup_foldl_return (owned : List TrackedOffer) (n : String) :
    ∀ (m : AgentMap) (a : Agent), lookupAgent m n = some a →
      lookupAgent (owned.foldl (fun ag o => updateAgent ag n
          (fun x => { x with inventory := returnOffer x.inventory o })) m) n =
        some { a with inventory := owned.foldl returnOffer a.inventory } := by
  induction owned with
  | nil =>
    intro m a ha
    simpa using ha
  | cons o rest ih =>
    intro m a ha
    have h1 := lookupAgent_update_self
      (fun x => { x with inventory := returnOffer x.inventory o }) ha
    exact ih _ _ h1

/-- Other agents are untouched by the restitution fold. -/
theorem lookup_foldl_return_ne (owned : List TrackedOffer) (n n' : String) (hne : n' ≠ n) :
    ∀ (m : AgentMap),
      lookupAgent (owned.foldl (fun ag o => updateAgent ag n
          (fun x => { x with inventory := returnOffer x.inventory o })) m) n' =
        lookupAgent m n' := by
  induction owned with
  | nil => intro m; rfl
  | cons o rest ih =>
    intro m
    rw [List.foldl_cons, ih]
    exact lookupAgent_update_ne _ hne

/-- Effect of the restitution fold on an agent-valuation sum, for a valuation
that shifts by a fixed per-offer amount. -/
theorem sumA_foldl_return {M : Type} [AddCommGroup M] (g : Agent → M) (d : TrackedOffer → M)
    (hg : ∀ (a : Agent) (o : TrackedOffer),
      g { a with inventory := returnOffer a.inventory o } = g a + d o)
    (owned : List TrackedOffer) (n : String) :
    ∀ (m : AgentMap) (a : Agent), lookupAgent m n = some a →
      sumA g (owned.foldl (fun ag o => updateAgent ag n
          (fun x => { x with inventory := returnOffer x.inventory o })) m) =
        sumA g m + sumO d owned := by
  induction owned with
  | nil =>
    intro m a ha
    simp
  | cons o rest ih =>
    intro m a ha
    have h1 := lookupAgent_update_self
      (fun x => { x with inventory := returnOffer x.inventory o }) ha
    have h2 := sumA_update g
      (fun x => { x with inventory := returnOffer x.inventory o }) ha
    have h3 := ih _ _ h1
    calc sumA g ((o :: rest).foldl (fun ag o => updateAgent ag n
            (fun x => { x with inventory := returnOffer x.inventory o })) m)
        = sumA g (updateAgent m n
            (fun x => { x with inventory := returnOffer x.inventory o })) + sumO d rest := h3
      _ = (sumA g m + (g { a with inventory := returnOffer a.inventory o } - g a)) + sumO d rest := by
          rw [h2]
      _ = sumA g m + sumO d (o :: rest) := by
          rw [hg a o]
          simp
          abel

/-! ### Conservation of cash and goods, operation by operation -/

/-- Changing cash leaves every good untouched. -/
@[simp] theorem getItem_withCash (inv : Inventory) (c : ℚ) (it : Item) :
    ({ inv with cash := c } : Inventory).getItem it = inv.getItem it := by
  cases it <;> rfl

@[simp] theorem sumO_single {M : Type} [AddCommGroup M] (f : TrackedOffer → M)
    (t : TrackedOffer) : sumO f [t] = f t := by
  simp [sumO]

/-- Creating a sell offer moves goods from the inventory into the book's
reservation: both conserved quantities are unchanged. -/
theorem conserved_create_sell (s : MarketState) (offer : OfferDraft)
    (hsell : offer.offer_type = OfferType.sell) (hfresh : FreshIds s) :
    conservedCash (create_offer s offer).1 = conservedCash s ∧
    ∀ it, conservedGood it (create_offer s offer).1 = conservedGood it s := by
  cases hs : lookupAgent s.agents offer.supplier with
  | none => simp [create_offer, hs]
  | some sup =>
    by_cases hq : sup.inventory.getItem offer.item < offer.quantity
    · simp [create_offer, hs, hq]
    · rw [create_offer_success hs hq]
      have hfresh' : ∀ o ∈ s.repository, o.id ≠ ({ offer with id := s.next_id } : TrackedOffer).id :=
        fun o ho => Nat.ne_of_lt (hfresh o ho)
      constructor
      · unfold conservedCash heldCash
        dsimp only
        rw [sumA_update _ _ hs, updateRepository_fresh hfresh', sumO_append, sumO_single]
        simp [update_inventory, cashVal, hsell]
      · intro it
        unfold conservedGood heldGood
        dsimp only
        rw [sumA_update _ _ hs, updateRepository_fresh hfresh', sumO_append, sumO_single]
        simp only [update_inventory, goodVal, hsell, getItem_setItem]
        by_cases hit : offer.item = it
        · simp [hit]
          ring
        · simp [hit]

/-- Creating a buy offer moves cash from the inventory into the book's
reservation: both conserved quantities are unchanged. -/
theorem conserved_create_buy (s : MarketState) (offer : OfferDraft)
    (hbuy : offer.offer_type = OfferType.buy) (hfresh : FreshIds s) :
    conservedCash (create_buy_offer s offer).1 = conservedCash s ∧
    ∀ it, conservedGood it (create_buy_offer s offer).1 = conservedGood it s := by
  cases hs : lookupAgent s.agents offer.supplier with
  | none => simp [create_buy_offer, hs]
  | some buyer =>
    by_cases hp : buyer.inventory.cash < offer.price
    · simp [create_buy_offer, hs, hp]
    · rw [create_buy_offer_success hs hp]
      have hfresh' : ∀ o ∈ s.repository, o.id ≠ ({ offer with id := s.next_id } : TrackedOffer).id :=
        fun o ho => Nat.ne_of_lt (hfresh o ho)
      constructor
      · unfold conservedCash heldCash
        dsimp only
        rw [sumA_update _ _ hs, updateRepository_fresh hfresh', sumO_append, sumO_single]
        simp [cashVal, hbuy]
        ring
      · intro it
        unfold conservedGood heldGood
        dsimp only
        rw [sumA_update _ _ hs, updateRepository_fresh hfresh', sumO_append, sumO_single]
        simp [goodVal, hbuy]

/-- Accepting an offer on the (direction-unchecked) sell path conserves both
quantities, provided the accepted offer really is a sell offer. -/
theorem conserved_accept_sell (s : MarketState) (b : String) (i : ℕ)
    (hdir : ∀ o, findOffer s.repository i = some o → o.offer_type = OfferType.sell) :
    conservedCash (evaluate_sell_transaction s b i).1 = conservedCash s ∧
    ∀ it, conservedGood it (evaluate_sell_transaction s b i).1 = conservedGood it s := by
  cases hf : findOffer s.repository i with
  | none => simp [evaluate_sell_notFound hf]
  | some o =>
    have ho : o.offer_type = OfferType.sell := hdir o hf
    by_cases h1 : b = o.supplier
    · simp [evaluate_sell_transaction, hf, h1]
    · cases hb : lookupAgent s.agents b with
      | none => simp [evaluate_sell_transaction, hf, h1, hb]
      | some buyer =>
        cases hs2 : lookupAgent s.agents o.supplier with
        | none => simp [evaluate_sell_transaction, hf, h1, hb, hs2]
        | some sup =>
          by_cases hp : buyer.inventory.cash < o.price
          · simp [evaluate_sell_transaction, hf, h1, hb, hs2, hp]
          · rw [evaluate_sell_success hf h1 hb hs2 hp]
            obtain ⟨-, hoid⟩ := findOffer_mem hf
            have hne : o.supplier ≠ b := fun h => h1 h.symm
            have hb1 : lookupAgent (updateAgent s.agents b (fun a =>
                { a with inventory := buyerSettle buyer.inventory o.item o.quantity o.price }))
                o.supplier = some sup := by
              rw [lookupAgent_update_ne _ hne]; exact hs2
            constructor
            · unfold conservedCash heldCash
              dsimp only
              rw [hoid, sumA_update _ _ hb1, sumA_update _ _ hb,
                sumO_removeOffer cashVal hf]
              simp [buyerSettle, cashVal, ho]
            · intro it
              unfold conservedGood heldGood
              dsimp only
              rw [hoid, sumA_update _ _ hb1, sumA_update _ _ hb,
                sumO_removeOffer (goodVal it) hf]
              simp only [buyerSettle, getItem_withCash, getItem_creditItem, goodVal, ho]
              by_cases hit : o.item = it
              · simp [hit]
              · simp [hit]

/-- Accepting a buy offer on the buy path conserves both quantities. -/
theorem conserved_accept_buy (s : MarketState) (b : String) (i : ℕ) :
    conservedCash (evaluate_buy_transaction s b i).1 = conservedCash s ∧
    ∀ it, conservedGood it (evaluate_buy_transaction s b i).1 = conservedGood it s := by
  cases hf : findOffer s.repository i with
  | none => simp [evaluate_buy_notFound hf]
  | some o =>
    by_cases hd : o.offer_type ≠ OfferType.buy
    · simp [evaluate_buy_transaction, hf, hd]
    · have ho : o.offer_type = OfferType.buy := not_not.mp hd
      by_cases h1 : b = o.supplier
      · simp [evaluate_buy_transaction, hf, hd, h1]
      · cases hb : lookupAgent s.agents b with
        | none => simp [evaluate_buy_transaction, hf, hd, h1, hb]
        | some seller =>
          cases hs2 : lookupAgent s.agents o.supplier with
          | none => simp [evaluate_buy_transaction, hf, hd, h1, hb, hs2]
          | some sup =>
            by_cases hq : seller.inventory.getItem o.item < o.quantity
            · simp [evaluate_buy_transaction, hf, hd, h1, hb, hs2, hq]
            · rw [evaluate_buy_success hf hd h1 hb hs2 hq]
              obtain ⟨-, hoid⟩ := findOffer_mem hf
              have hne : o.supplier ≠ b := fun h => h1 h.symm
              have hb1 : lookupAgent (updateAgent s.agents b (fun a =>
                  { a with inventory := sellerSettle a.inventory o.item o.quantity o.price }))
                  o.supplier = some sup := by
                rw [lookupAgent_update_ne _ hne]; exact hs2
              constructor
              · unfold conservedCash heldCash
                dsimp only
                rw [hoid, sumA_update _ _ hb1, sumA_update _ _ hb,
                  sumO_removeOffer cashVal hf]
                simp [sellerSettle, creditItem, cashVal, ho]
              · intro it
                unfold conservedGood heldGood
                dsimp only
                rw [hoid, sumA_update _ _ hb1, sumA_update _ _ hb,
                  sumO_removeOffer (goodVal it) hf]
                simp only [sellerSettle, getItem_withCash, getItem_setItem,
                  getItem_creditItem, goodVal, ho]
                by_cases hit : o.item = it
                · simp [hit]
                · simp [hit]

/-- Cancelling an offer returns exactly the reservation: both conserved
quantities are unchanged. -/
theorem conserved_cancel (s : MarketState) (n : String) (i : ℕ) :
    conservedCash (cancel_offer s n i).1 = conservedCash s ∧
    ∀ it, conservedGood it (cancel_offer s n i).1 = conservedGood it s := by
  cases hf : findOffer s.repository i with
  | none => simp [cancel_offer, hf]
  | some o =>
    by_cases hown : o.supplier ≠ n
    · simp [cancel_offer, hf, hown]
    · cases ha : lookupAgent s.agents n with
      | none => simp [cancel_offer, hf, hown, ha]
      | some a =>
        rw [cancel_offer_success hf hown ha]
        constructor
        · unfold conservedCash heldCash
          dsimp only
          rw [sumA_update _ _ ha, sumO_removeOffer cashVal hf]
          simp [cash_returnOffer]
        · intro it
          unfold conservedGood heldGood
          dsimp only
          rw [sumA_update _ _ ha, sumO_removeOffer (goodVal it) hf]
          simp [getItem_returnOffer]

/-- Purging with restitution returns every owned reservation: both conserved
quantities are unchanged. -/
theorem conserved_purge (s : MarketState) (n : String) (hsup : SuppliersPresent s) :
    conservedCash (delete_agent_offers s n true) = conservedCash s ∧
    ∀ it, conservedGood it (delete_agent_offers s n true) = conservedGood it s := by
  cases hl : lookupAgent s.agents n with
  | none =>
    have hno : ∀ o ∈ s.repository, ¬ o.supplier = n := by
      intro o homem hosup
      have := hsup o homem
      rw [hosup, hl] at this
      simp at this
    rw [delete_agent_offers_no_owned hno]
    exact ⟨rfl, fun it => rfl⟩
  | some a =>
    have hag : (delete_agent_offers s n true).agents =
        (s.repository.filter (fun o => o.supplier = n)).foldl (fun ag o => updateAgent ag n
          (fun x => { x with inventory := returnOffer x.inventory o })) s.agents := rfl
    have hgcash : ∀ (x : Agent) (o : TrackedOffer),
        ({ x with inventory := returnOffer x.inventory o } : Agent).inventory.cash =
          x.inventory.cash + cashVal o := fun x o => cash_returnOffer x.inventory o
    constructor
    · unfold conservedCash heldCash
      rw [repository_delete_agent_offers, hag]
      rw [sumA_foldl_return (fun a => a.inventory.cash) cashVal hgcash _ n _ a hl]
      have hsplit := sumO_filter_split cashVal (fun o => o.supplier = n) s.repository
      linarith [hsplit]
    · intro it
      have hggood : ∀ (x : Agent) (o : TrackedOffer),
          ({ x with inventory := returnOffer x.inventory o } : Agent).inventory.getItem it =
            x.inventory.getItem it + goodVal it o := fun x o => getItem_returnOffer x.inventory o it
      unfold conservedGood heldGood
      rw [repository_delete_agent_offers, hag]
      rw [sumA_foldl_return (fun a => a.inventory.getItem it) (goodVal it) hggood _ n _ a hl]
      have hsplit := sumO_filter_split (goodVal it) (fun o => o.supplier = n) s.repository
      linarith [hsplit]

/-! ### Claim C1: conservation -/

/-- Concrete two-agent state for the C1 counterexample: A and B each hold 10
cash and no goods; the book is empty. -/
def sC1 : MarketState :=
  { repository := [],
    agents := [("A", { inventory := ⟨10, 0, 0, 0⟩, energy := 5, operational_cost := 1, is_alive := true }),
               ("B", { inventory := ⟨10, 0, 0, 0⟩, energy := 5, operational_cost := 1, is_alive := true })],
    next_id := 1,
    trade_history := [] }

/-- The buy offer A posts in the C1 counterexample. -/
def offC1 : OfferDraft := ⟨"A", Item.apple, 2, 5, "", OfferType.buy⟩

/-- Claim C1 as stated is false: the sequence "A creates a buy offer, B
accepts it through the sell-acceptance path" succeeds and fabricates 2 apples
(the conserved apple quantity grows from 0 to 2; the reserved cash is
destroyed at the same time, see C10). -/
theorem C1_counterexample :
    (create_buy_offer sC1 offC1).2 = none ∧
    (evaluate_sell_transaction (create_buy_offer sC1 offC1).1 "B" 1).2 = none ∧
    ¬ (conservedGood Item.apple
        (evaluate_sell_transaction (create_buy_offer sC1 offC1).1 "B" 1).1 =
        conservedGood Item.apple sC1) := by
  decide

/-- C1 (amended): every ledger operation of the claimed set conserves total
cash held plus cash reserved in open buy offers, and, for each good, total
units held plus units reserved in open sell offers — except that the
sell-acceptance path must only be applied to sell-direction offers (it
performs no direction check, and accepting a buy offer through it destroys
the reserved cash and fabricates goods, see C10).  Hypotheses: repository ids
are below the serial counter and every open offer's supplier is a dictionary
member, both facts the implementation maintains. -/
theorem C1_conservation_per_op (s : MarketState) (op : LedgerOp)
    (hfresh : FreshIds s) (hsup : SuppliersPresent s)
    (hdir : ∀ b j, op = LedgerOp.acceptSell b j →
      ∀ o, findOffer s.repository j = some o → o.offer_type = OfferType.sell) :
    conservedCash (applyLedgerOp s op).1 = conservedCash s ∧
    ∀ it, conservedGood it (applyLedgerOp s op).1 = conservedGood it s := by
  cases op with
  | createSell sup it q p m =>
    exact conserved_create_sell s ⟨sup, it, q, p, m, OfferType.sell⟩ rfl hfresh
  | createBuy buyer it q p m =>
    exact conserved_create_buy s ⟨buyer, it, q, p, m, OfferType.buy⟩ rfl hfresh
  | acceptSell b j => exact conserved_accept_sell s b j (hdir b j rfl)
  | acceptBuy b j => exact conserved_accept_buy s b j
  | cancel n j => exact conserved_cancel s n j
  | purgeRestitution n => exact conserved_purge s n hsup

/-- Concrete state for the C1 witness: agent A owns a live sell offer of 3
apples (already reserved out of the inventory). -/
def sC1w : MarketState :=
  { repository := [{ supplier := "A", item := Item.apple, quantity := 3, price := 12,
                     message := "", offer_type := OfferType.sell, id := 1 }],
    agents := [("A", { inventory := ⟨20, 2, 0, 0⟩, energy := 5, operational_cost := 1, is_alive := true })],
    next_id := 2,
    trade_history := [] }

/-- Witness: C1 applied to purging A's offers with restitution on `sC1w`. -/
theorem C1_conservation_per_op_witness :
    conservedCash (applyLedgerOp sC1w (LedgerOp.purgeRestitution "A")).1 = conservedCash sC1w ∧
    ∀ it, conservedGood it (applyLedgerOp sC1w (LedgerOp.purgeRestitution "A")).1 =
      conservedGood it sC1w :=
  C1_conservation_per_op sC1w (LedgerOp.purgeRestitution "A")
    (by simp [FreshIds, sC1w])
    (by simp [SuppliersPresent, sC1w, lookupAgent])
    (fun b j h => LedgerOp.noConfusion h)

/-! ### Claim C6: atomicity -/

/-- If no offer bears the id, lookup fails. -/
theorem findOffer_eq_none {l : List TrackedOffer} {i : ℕ}
    (h : ∀ o ∈ l, o.id ≠ i) : findOffer l i = none := by
  induction l with
  | nil => rfl
  | cons x rest ih =>
    have hx : x.id ≠ i := h x (List.mem_cons_self _ _)
    simp only [findOffer, hx, ite_false, if_neg]
    exact ih (fun o ho => h o (List.mem_cons_of_mem _ ho))

/-- C6: every fallible ledger operation is atomic — whenever it reports an
error the returned market state is exactly the input state (all raises
precede all mutations in the source) — and accepting an absent offer id
through either acceptance path fails with `OfferNotFound` and changes
nothing. -/
theorem C6_atomicity (s : MarketState) (d : OfferDraft) (b sl ow : String) (i j : ℕ)
    (habs : ∀ o ∈ s.repository, o.id ≠ j) :
    (∀ e, (create_offer s d).2 = some e → (create_offer s d).1 = s) ∧
    (∀ e, (create_buy_offer s d).2 = some e → (create_buy_offer s d).1 = s) ∧
    (∀ e, (evaluate_sell_transaction s b i).2 = some e →
      (evaluate_sell_transaction s b i).1 = s) ∧
    (∀ e, (evaluate_buy_transaction s sl i).2 = some e →
      (evaluate_buy_transaction s sl i).1 = s) ∧
    (∀ e, (cancel_offer s ow i).2 = some e → (cancel_offer s ow i).1 = s) ∧
    evaluate_sell_transaction s b j = (s, some Err.offerNotFound) ∧
    evaluate_buy_transaction s sl j = (s, some Err.offerNotFound) := by
  refine ⟨?_, ?_, ?_, ?_, ?_, ?_, ?_⟩
  · intro e he
    rcases create_offer_shape s d with h | h
    · rw [h] at he; cases he
    · exact h
  · intro e he
    rcases create_buy_offer_shape s d with h | h
    · rw [h] at he; cases he
    · exact h
  · intro e he
    rcases evaluate_sell_shape s b i with h | h
    · rw [h] at he; cases he
    · exact h
  · intro e he
    rcases evaluate_buy_shape s sl i with h | h
    · rw [h] at he; cases he
    · exact h
  · intro e he
    rcases cancel_offer_shape s ow i with h | h
    · rw [h] at he; cases he
    · exact h
  · exact evaluate_sell_notFound (findOffer_eq_none habs)
  · exact evaluate_buy_notFound (findOffer_eq_none habs)

/-- Concrete state for the C6 witness: one agent, one live sell offer id 1. -/
def sC6 : MarketState :=
  { repository := [{ supplier := "A", item := Item.chip, quantity := 1, price := 4,
                     message := "", offer_type := OfferType.sell, id := 1 }],
    agents := [("A", { inventory := ⟨8, 0, 1, 0⟩, energy := 4, operational_cost := 1, is_alive := true })],
    next_id := 2,
    trade_history := [] }

/-- Witness: C6 at `sC6` with the absent id 99. -/
theorem C6_atomicity_witness :
    evaluate_sell_transaction sC6 "B" 99 = (sC6, some Err.offerNotFound) ∧
    evaluate_buy_transaction sC6 "B" 99 = (sC6, some Err.offerNotFound) :=
  ⟨(C6_atomicity sC6 ⟨"A", Item.chip, 1, 4, "", OfferType.sell⟩ "B" "B" "B" 1 99
      (by decide)).2.2.2.2.2.1,
   (C6_atomicity sC6 ⟨"A", Item.chip, 1, 4, "", OfferType.sell⟩ "B" "B" "B" 1 99
      (by decide)).2.2.2.2.2.2⟩

/-! ### Claim C5: the accept-buy-offer contract -/

/-- C5: `accept_buy_offer` fails with `OfferNotFound` on an absent id,
`WrongOfferDirection` on a non-buy offer, `SelfTrade` when the seller created
the offer, `InsufficientGoods` when the seller's holding is short; on success
it debits the seller's good by the quantity, credits the seller's cash by the
price, credits the creator's good by the quantity while leaving the creator's
cash untouched (it was reserved at creation and is never re-debited), removes
the offer and appends a trade with supplier = seller and buyer = creator. -/
theorem C5_accept_buy_offer_spec (s : MarketState) (sl : String) (i : ℕ) :
    (findOffer s.repository i = none →
      evaluate_buy_transaction s sl i = (s, some Err.offerNotFound)) ∧
    (∀ o, findOffer s.repository i = some o → o.offer_type ≠ OfferType.buy →
      evaluate_buy_transaction s sl i = (s, some Err.wrongDirection)) ∧
    (∀ o, findOffer s.repository i = some o → o.offer_type = OfferType.buy →
      sl = o.supplier →
      evaluate_buy_transaction s sl i = (s, some Err.selfTrade)) ∧
    (∀ o seller sup, findOffer s.repository i = some o → o.offer_type = OfferType.buy →
      ¬ sl = o.supplier →
      lookupAgent s.agents sl = some seller →
      lookupAgent s.agents o.supplier = some sup →
      seller.inventory.getItem o.item < o.quantity →
      evaluate_buy_transaction s sl i = (s, some Err.insufficientGoods)) ∧
    (∀ o seller sup, findOffer s.repository i = some o → o.offer_type = OfferType.buy →
      ¬ sl = o.supplier →
      lookupAgent s.agents sl = some seller →
      lookupAgent s.agents o.supplier = some sup →
      ¬ seller.inventory.getItem o.item < o.quantity →
      (evaluate_buy_transaction s sl i).2 = none ∧
      lookupAgent (evaluate_buy_transaction s sl i).1.agents sl =
        some { seller with inventory := sellerSettle seller.inventory o.item o.quantity o.price } ∧
      lookupAgent (evaluate_buy_transaction s sl i).1.agents o.supplier =
        some { sup with inventory := creditItem sup.inventory o.item o.quantity } ∧
      (creditItem sup.inventory o.item o.quantity).cash = sup.inventory.cash ∧
      (evaluate_buy_transaction s sl i).1.repository = removeOffer s.repository o.id ∧
      (evaluate_buy_transaction s sl i).1.trade_history = s.trade_history ++
        [{ supplier := sl, buyer := o.supplier, item := o.item,
           quantity := o.quantity, price := o.price }]) := by
  refine ⟨?_, ?_, ?_, ?_, ?_⟩
  · intro h
    exact evaluate_buy_notFound h
  · intro o hf hd
    simp [evaluate_buy_transaction, hf, hd]
  · intro o hf hd hself
    simp [evaluate_buy_transaction, hf, hd, hself]
  · intro o seller sup hf hd hself hsl hsup hq
    simp [evaluate_buy_transaction, hf, hd, hself, hsl, hsup, hq]
  · intro o seller sup hf hd hself hsl hsup hq
    have hd' : ¬ o.offer_type ≠ OfferType.buy := not_not.mpr hd
    rw [evaluate_buy_success hf hd' hself hsl hsup hq]
    have hne : o.supplier ≠ sl := fun h => hself h.symm
    refine ⟨rfl, ?_, ?_, cash_creditItem _ _ _, rfl, rfl⟩
    · dsimp only
      rw [lookupAgent_update_ne _ (fun h => hself h), lookupAgent_update_self _ hsl]
    · dsimp only
      rw [lookupAgent_update_self _ (by rw [lookupAgent_update_ne _ hne]; exact hsup)]

/-- Concrete state for the C5 witness: B posted a buy offer for 2 apples at
total price 7 (cash already reserved), S holds 5 apples. -/
def sC5 : MarketState :=
  { repository := [{ supplier := "B", item := Item.apple, quantity := 2, price := 7,
                     message := "", offer_type := OfferType.buy, id := 1 }],
    agents := [("B", { inventory := ⟨3, 0, 0, 0⟩, energy := 4, operational_cost := 1, is_alive := true }),
               ("S", { inventory := ⟨0, 5, 0, 0⟩, energy := 4, operational_cost := 1, is_alive := true })],
    next_id := 2,
    trade_history := [] }

/-- Witness: the C5 success clause at `sC5` with seller S. -/
theorem C5_accept_buy_offer_spec_witness :
    (evaluate_buy_transaction sC5 "S" 1).2 = none ∧
    lookupAgent (evaluate_buy_transaction sC5 "S" 1).1.agents "S" =
      some { inventory := sellerSettle ⟨0, 5, 0, 0⟩ Item.apple 2 7, energy := 4,
             operational_cost := 1, is_alive := true } ∧
    lookupAgent (evaluate_buy_transaction sC5 "S" 1).1.agents "B" =
      some { inventory := creditItem ⟨3, 0, 0, 0⟩ Item.apple 2, energy := 4,
             operational_cost := 1, is_alive := true } ∧
    (creditItem (⟨3, 0, 0, 0⟩ : Inventory) Item.apple 2).cash = (3 : ℚ) ∧
    (evaluate_buy_transaction sC5 "S" 1).1.repository = removeOffer sC5.repository 1 ∧
    (evaluate_buy_transaction sC5 "S" 1).1.trade_history =
      [{ supplier := "S", buyer := "B", item := Item.apple, quantity := 2, price := 7 }] :=
  (C5_accept_buy_offer_spec sC5 "S" 1).2.2.2.2
    { supplier := "B", item := Item.apple, quantity := 2, price := 7,
      message := "", offer_type := OfferType.buy, id := 1 }
    { inventory := ⟨0, 5, 0, 0⟩, energy := 4, operational_cost := 1, is_alive := true }
    { inventory := ⟨3, 0, 0, 0⟩, energy := 4, operational_cost := 1, is_alive := true }
    rfl rfl (by decide) rfl rfl (by decide)

/-! ### Claim C10: the sell path performs no direction check -/

/-- C10: `accept_sell_offer` applied to an open buy offer by a non-creator
with sufficient cash does not fail: the accepter pays the price and receives
the quantity (never reserved for this offer), the buy-offer creator's cash is
credited the price, the offer is removed — and the cash the creator reserved
at creation is discarded (the conserved cash total drops by the price). -/
theorem C10_sell_path_no_direction_check (s : MarketState) (b : String) (i : ℕ)
    (o : TrackedOffer) (buyer sup : Agent)
    (hf : findOffer s.repository i = some o)
    (hbuy : o.offer_type = OfferType.buy)
    (hself : ¬ b = o.supplier)
    (hb : lookupAgent s.agents b = some buyer)
    (hs : lookupAgent s.agents o.supplier = some sup)
    (hp : ¬ buyer.inventory.cash < o.price) :
    (evaluate_sell_transaction s b i).2 = none ∧
    lookupAgent (evaluate_sell_transaction s b i).1.agents b =
      some { buyer with inventory := buyerSettle buyer.inventory o.item o.quantity o.price } ∧
    lookupAgent (evaluate_sell_transaction s b i).1.agents o.supplier =
      some { sup with inventory := creditCash sup.inventory o.price } ∧
    (buyerSettle buyer.inventory o.item o.quantity o.price).cash =
      buyer.inventory.cash - o.price ∧
    (buyerSettle buyer.inventory o.item o.quantity o.price).getItem o.item =
      buyer.inventory.getItem o.item + o.quantity ∧
    (creditCash sup.inventory o.price).cash = sup.inventory.cash + o.price ∧
    (evaluate_sell_transaction s b i).1.repository = removeOffer s.repository o.id ∧
    conservedCash (evaluate_sell_transaction s b i).1 = conservedCash s - o.price := by
  obtain ⟨-, hoid⟩ := findOffer_mem hf
  have hne : o.supplier ≠ b := fun h => hself h.symm
  have hb1 : lookupAgent (updateAgent s.agents b (fun a =>
      { a with inventory := buyerSettle buyer.inventory o.item o.quantity o.price }))
      o.supplier = some sup := by
    rw [lookupAgent_update_ne _ hne]; exact hs
  rw [evaluate_sell_success hf hself hb hs hp]
  refine ⟨rfl, ?_, ?_, rfl, ?_, rfl, rfl, ?_⟩
  · dsimp only
    rw [lookupAgent_update_ne _ (fun h => hself h), lookupAgent_update_self _ hb]
  · dsimp only
    rw [lookupAgent_update_self _ hb1]
  · simp [buyerSettle, getItem_creditItem]
  · unfold conservedCash heldCash
    dsimp only
    rw [hoid, sumA_update _ _ hb1, sumA_update _ _ hb, sumO_removeOffer cashVal hf]
    simp [buyerSettle, cashVal, hbuy]
    ring

/-- Concrete state for the C10 witness: A reserved 4 cash in a buy offer for
1 apple; B holds 9 cash. -/
def sC10 : MarketState :=
  { repository := [{ supplier := "A", item := Item.apple, quantity := 1, price := 4,
                     message := "", offer_type := OfferType.buy, id := 1 }],
    agents := [("A", { inventory := ⟨6, 0, 0, 0⟩, energy := 4, operational_cost := 1, is_alive := true }),
               ("B", { inventory := ⟨9, 0, 0, 0⟩, energy := 4, operational_cost := 1, is_alive := true })],
    next_id := 2,
    trade_history := [] }

/-- Witness: C10 at `sC10` with accepter B. -/
theorem C10_sell_path_no_direction_check_witness :
    (evaluate_sell_transaction sC10 "B" 1).2 = none ∧
    lookupAgent (evaluate_sell_transaction sC10 "B" 1).1.agents "B" =
      some { inventory := buyerSettle ⟨9, 0, 0, 0⟩ Item.apple 1 4, energy := 4,
             operational_cost := 1, is_alive := true } ∧
    lookupAgent (evaluate_sell_transaction sC10 "B" 1).1.agents "A" =
      some { inventory := creditCash ⟨6, 0, 0, 0⟩ 4, energy := 4,
             operational_cost := 1, is_alive := true } ∧
    (buyerSettle (⟨9, 0, 0, 0⟩ : Inventory) Item.apple 1 4).cash = (9 : ℚ) - 4 ∧
    (buyerSettle (⟨9, 0, 0, 0⟩ : Inventory) Item.apple 1 4).getItem Item.apple = 0 + 1 ∧
    (creditCash (⟨6, 0, 0, 0⟩ : Inventory) 4).cash = (6 : ℚ) + 4 ∧
    (evaluate_sell_transaction sC10 "B" 1).1.repository = removeOffer sC10.repository 1 ∧
    conservedCash (evaluate_sell_transaction sC10 "B" 1).1 = conservedCash sC10 - 4 :=
  C10_sell_path_no_direction_check sC10 "B" 1
    { supplier := "A", item := Item.apple, quantity := 1, price := 4,
      message := "", offer_type := OfferType.buy, id := 1 }
    { inventory := ⟨9, 0, 0, 0⟩, energy := 4, operational_cost := 1, is_alive := true }
    { inventory := ⟨6, 0, 0, 0⟩, energy := 4, operational_cost := 1, is_alive := true }
    rfl rfl (by decide) rfl rfl (by decide)

/-! ### Claim C7: round-trip laws -/

/-- C7: creating a sell offer and immediately cancelling it restores the
supplier's goods count exactly, and creating a buy offer and immediately
cancelling it restores the creator's cash exactly. -/
theorem C7_roundtrip_laws (s : MarketState) (sup b : String) (it : Item) (q : ℤ) (p : ℚ)
    (m1 m2 : String) (a bb : Agent)
    (hfresh : FreshIds s)
    (ha : lookupAgent s.agents sup = some a)
    (hq : ¬ a.inventory.getItem it < q)
    (hb : lookupAgent s.agents b = some bb)
    (hp : ¬ bb.inventory.cash < p) :
    ((create_offer s ⟨sup, it, q, p, m1, OfferType.sell⟩).2 = none ∧
     (cancel_offer (create_offer s ⟨sup, it, q, p, m1, OfferType.sell⟩).1 sup s.next_id).2 = none ∧
     Option.map (fun ag => ag.inventory.getItem it)
       (lookupAgent
         (cancel_offer (create_offer s ⟨sup, it, q, p, m1, OfferType.sell⟩).1 sup s.next_id).1.agents
         sup) = some (a.inventory.getItem it)) ∧
    ((create_buy_offer s ⟨b, it, q, p, m2, OfferType.buy⟩).2 = none ∧
     (cancel_offer (create_buy_offer s ⟨b, it, q, p, m2, OfferType.buy⟩).1 b s.next_id).2 = none ∧
     Option.map (fun ag => ag.inventory.cash)
       (lookupAgent
         (cancel_offer (create_buy_offer s ⟨b, it, q, p, m2, OfferType.buy⟩).1 b s.next_id).1.agents
         b) = some bb.inventory.cash) := by
  have hids : ∀ o ∈ s.repository, o.id ≠ s.next_id := fun o ho => Nat.ne_of_lt (hfresh o ho)
  constructor
  · rw [create_offer_success ha hq]
    have hfind : findOffer
        (updateRepository s.repository
          { supplier := sup, item := it, quantity := q, price := p, message := m1,
            offer_type := OfferType.sell, id := s.next_id }) s.next_id =
        some { supplier := sup, item := it, quantity := q, price := p, message := m1,
               offer_type := OfferType.sell, id := s.next_id } := by
      rw [updateRepository_fresh hids]
      exact findOffer_append_fresh hids rfl
    have hlook : lookupAgent (updateAgent s.agents sup (fun x =>
        { x with inventory :=
            (update_inventory x.inventory ⟨sup, it, q, p, m1, OfferType.sell⟩ none).1 })) sup =
        some { a with inventory :=
            (update_inventory a.inventory ⟨sup, it, q, p, m1, OfferType.sell⟩ none).1 } :=
      lookupAgent_update_self _ ha
    rw [cancel_offer_success hfind (by simp) hlook]
    refine ⟨rfl, rfl, ?_⟩
    dsimp only
    rw [lookupAgent_update_self _ hlook]
    simp [update_inventory, returnOffer, getItem_creditItem, getItem_setItem]
  · rw [create_buy_offer_success hb hp]
    have hfind : findOffer
        (updateRepository s.repository
          { supplier := b, item := it, quantity := q, price := p, message := m2,
            offer_type := OfferType.buy, id := s.next_id }) s.next_id =
        some { supplier := b, item := it, quantity := q, price := p, message := m2,
               offer_type := OfferType.buy, id := s.next_id } := by
      rw [updateRepository_fresh hids]
      exact findOffer_append_fresh hids rfl
    have hlook : lookupAgent (updateAgent s.agents b (fun x =>
        { x with inventory := { x.inventory with cash := x.inventory.cash - p } })) b =
        some { bb with inventory := { bb.inventory with cash := bb.inventory.cash - p } } :=
      lookupAgent_update_self _ hb
    rw [cancel_offer_success hfind (by simp) hlook]
    refine ⟨rfl, rfl, ?_⟩
    dsimp only
    rw [lookupAgent_update_self _ hlook]
    simp [returnOffer, creditCash]

/-! ### The decay-pass body at energy 1 (claims C2 and C3) -/

/-- The purged agent after `delete_agent_offers` with restitution. -/
theorem lookup_delete_agent_offers_self (s : MarketState) (n : String) (a : Agent)
    (ha : lookupAgent s.agents n = some a) :
    lookupAgent (delete_agent_offers s n true).agents n =
      some { a with inventory :=
        (s.repository.filter (fun o => o.supplier = n)).foldl returnOffer a.inventory } := by
  have hag : (delete_agent_offers s n true).agents =
      (s.repository.filter (fun o => o.supplier = n)).foldl (fun ag o => updateAgent ag n
        (fun x => { x with inventory := returnOffer x.inventory o })) s.agents := rfl
  rw [hag]
  exact lookup_foldl_return _ _ _ _ ha

/-- What the decay-pass body does to an agent entering at energy 1 who owns no
open offers: the decrement drives energy to 0, the agent is marked dead and
recorded in the dead list; afterwards the conversion check still runs, so with
at least one apple the dead agent converts (one apple consumed, the fixed
energy amount restored), and with none it stays at energy 0. -/
theorem drainOne_energy_one (st : SimState) (name : String) (a : Agent)
    (ha : lookupAgent st.market.agents name = some a)
    (h1 : a.energy = 1)
    (hno : ∀ o ∈ st.market.repository, ¬ o.supplier = name) :
    name ∈ (drainOne st name).dead ∧
    (drainOne st name).market.repository = st.market.repository ∧
    lookupAgent (drainOne st name).market.agents name =
      some (if a.inventory.apple ≠ 0 then
        { inventory := { a.inventory with apple := a.inventory.apple - 1 },
          energy := a.energy - 1 + general_settings.energy_qty_restored_by_apple,
          operational_cost := a.operational_cost, is_alive := false }
      else
        { inventory := a.inventory, energy := a.energy - 1,
          operational_cost := a.operational_cost, is_alive := false }) := by
  have he : a.energy - 1 = 0 := by omega
  unfold drainOne
  simp only [ha]
  rw [he]
  have hdeath : drainDeath
      { st with market := { st.market with
          agents := updateAgent st.market.agents name (fun _ => { a with energy := 0 }) } }
      name { a with energy := 0 } =
      { market := delete_agent_offers
          { st.market with
              agents := updateAgent (updateAgent st.market.agents name
                (fun _ => { a with energy := 0 })) name (fun b => { b with is_alive := false }) }
          name true,
        bankrupt := st.bankrupt, dead := st.dead ++ [name] } := by
    unfold drainDeath
    rw [if_pos rfl]
  rw [hdeath]
  have hdel : delete_agent_offers
      { st.market with
          agents :=
            updateAgent
              (updateAgent st.market.agents name (fun _ => { a with energy := 0 }))
              name (fun b => { b with is_alive := false }) } name true =
      { st.market with
          agents :=
            updateAgent
              (updateAgent st.market.agents name (fun _ => { a with energy := 0 }))
              name (fun b => { b with is_alive := false }) } :=
    delete_agent_offers_no_owned hno
  rw [hdel]
  have hb : lookupAgent
      (updateAgent (updateAgent st.market.agents name (fun _ => { a with energy := 0 }))
        name (fun b => { b with is_alive := false })) name =
      some { inventory := a.inventory, energy := 0,
             operational_cost := a.operational_cost, is_alive := false } := by
    rw [lookupAgent_update_self _ (lookupAgent_update_self _ ha)]
  unfold drainConvert
  simp only [hb]
  by_cases happle : a.inventory.apple ≠ 0
  · rw [if_pos ⟨by decide, happle⟩, if_pos happle]
    refine ⟨by simp, rfl, ?_⟩
    rw [lookupAgent_update_self _ hb]
  · rw [if_neg (by simp [happle]), if_neg happle]
    exact ⟨by simp, rfl, hb⟩

/-! ### Claims C2 and C3: death and apple conversion in the decay pass -/

/-- Concrete state for the C2 counterexample: D enters the decay pass at
energy 1 holding one apple and no open offers. -/
def stC2 : SimState :=
  { market := { repository := [],
                agents := [("D", { inventory := ⟨0, 1, 0, 0⟩, energy := 1,
                                   operational_cost := 1, is_alive := true })],
                next_id := 1,
                trade_history := [] },
    bankrupt := [],
    dead := [] }

/-- Claim C2 as stated is false: D is marked dead in the decay pass, yet the
pass consumes D's apple (1 to 0) and restores energy (0 to 3). -/
theorem C2_counterexample :
    "D" ∈ (drain_energy stC2 ["D"]).dead ∧
    lookupAgent (drain_energy stC2 ["D"]).market.agents "D" =
      some { inventory := ⟨0, 0, 0, 0⟩, energy := 3,
             operational_cost := 1, is_alive := false } := by
  decide

/-- C2 (amended): the conversion check does run after the decrement/death
check, but it is not gated on survival — a participant entering the decay
body at energy 1 (owning no open offers) is marked dead and recorded in the
dead list, and when they hold at least one apple the same pass still consumes
one apple and restores the fixed energy amount; the participant stays dead. -/
theorem C2_dead_agent_still_converts (st : SimState) (name : String) (a : Agent)
    (ha : lookupAgent st.market.agents name = some a)
    (h1 : a.energy = 1)
    (hno : ∀ o ∈ st.market.repository, ¬ o.supplier = name)
    (happle : a.inventory.apple ≠ 0) :
    name ∈ (drainOne st name).dead ∧
    lookupAgent (drainOne st name).market.agents name =
      some { inventory := { a.inventory with apple := a.inventory.apple - 1 },
             energy := a.energy - 1 + general_settings.energy_qty_restored_by_apple,
             operational_cost := a.operational_cost, is_alive := false } := by
  obtain ⟨hd, -, hl⟩ := drainOne_energy_one st name a ha h1 hno
  refine ⟨hd, ?_⟩
  rw [hl, if_pos happle]

/-- Witness: C2 (amended) at `stC2`. -/
theorem C2_dead_agent_still_converts_witness :
    "D" ∈ (drainOne stC2 "D").dead ∧
    lookupAgent (drainOne stC2 "D").market.agents "D" =
      some { inventory := { (⟨0, 1, 0, 0⟩ : Inventory) with apple := (1 : ℤ) - 1 },
             energy := (1 : ℤ) - 1 + general_settings.energy_qty_restored_by_apple,
             operational_cost := 1, is_alive := false } :=
  C2_dead_agent_still_converts stC2 "D"
    { inventory := ⟨0, 1, 0, 0⟩, energy := 1, operational_cost := 1, is_alive := true }
    rfl rfl (by decide) (by decide)

/-- Concrete state for the C3 counterexample: E enters the decay pass at
energy 1 holding two apples and no open offers. -/
def stC3 : SimState :=
  { market := { repository := [],
                agents := [("E", { inventory := ⟨2, 2, 0, 0⟩, energy := 1,
                                   operational_cost := 1, is_alive := true })],
                next_id := 1,
                trade_history := [] },
    bankrupt := [],
    dead := [] }

/-- Claim C3 as stated is false: a participant entering at energy 1 with
apples in hand does not remain alive — E is marked dead (the death check runs
before the conversion), even though the apple is consumed and energy
restored afterwards. -/
theorem C3_counterexample :
    lookupAgent (drain_energy stC3 ["E"]).market.agents "E" =
      some { inventory := ⟨2, 1, 0, 0⟩, energy := 3,
             operational_cost := 1, is_alive := false } ∧
    "E" ∈ (drain_energy stC3 ["E"]).dead := by
  decide

/-- C3 (amended): in the decay pass a participant entering at energy 1 with
zero apples (and no open offers) ends at energy 0, marked dead; a participant
entering at energy 1 with at least one apple is also marked dead — the
zero-check kills them first — and only then converts: one apple is consumed
and the fixed energy amount restored, with the status remaining dead. -/
theorem C3_energy_one_outcomes (st : SimState) (name : String) (a : Agent)
    (ha : lookupAgent st.market.agents name = some a)
    (h1 : a.energy = 1)
    (hno : ∀ o ∈ st.market.repository, ¬ o.supplier = name) :
    (a.inventory.apple = 0 →
      name ∈ (drainOne st name).dead ∧
      lookupAgent (drainOne st name).market.agents name =
        some { inventory := a.inventory, energy := 0,
               operational_cost := a.operational_cost, is_alive := false }) ∧
    (a.inventory.apple ≠ 0 →
      name ∈ (drainOne st name).dead ∧
      lookupAgent (drainOne st name).market.agents name =
        some { inventory := { a.inventory with apple := a.inventory.apple - 1 },
               energy := a.energy - 1 + general_settings.energy_qty_restored_by_apple,
               operational_cost := a.operational_cost, is_alive := false }) := by
  obtain ⟨hd, -, hl⟩ := drainOne_energy_one st name a ha h1 hno
  constructor
  · intro h0
    refine ⟨hd, ?_⟩
    rw [hl, if_neg (by simp [h0])]
    have : a.energy - 1 = 0 := by omega
    rw [this]
  · intro happle
    refine ⟨hd, ?_⟩
    rw [hl, if_pos happle]

/-- Witness: the with-apples branch of C3 (amended) at `stC3`. -/
theorem C3_energy_one_outcomes_witness :
    "E" ∈ (drainOne stC3 "E").dead ∧
    lookupAgent (drainOne stC3 "E").market.agents "E" =
      some { inventory := { (⟨2, 2, 0, 0⟩ : Inventory) with apple := (2 : ℤ) - 1 },
             energy := (1 : ℤ) - 1 + general_settings.energy_qty_restored_by_apple,
             operational_cost := 1, is_alive := false } :=
  (C3_energy_one_outcomes stC3 "E"
    { inventory := ⟨2, 2, 0, 0⟩, energy := 1, operational_cost := 1, is_alive := true }
    rfl rfl (by decide)).2 (by decide)

/-! ### Claim C8: operational payment and bankruptcy -/

/-- Restitution credits exactly the cash reserved across the folded offers. -/
theorem cash_foldl_returnOffer (owned : List TrackedOffer) :
    ∀ inv : Inventory, (owned.foldl returnOffer inv).cash = inv.cash + sumO cashVal owned := by
  induction owned with
  | nil => intro inv; simp
  | cons o rest ih =>
    intro inv
    rw [List.foldl_cons, ih, cash_returnOffer, sumO_cons]
    ring

/-- C8 (amended): `collect_operational_payment` zeroes the cash and reports
failure when the cash is below the operational cost, and otherwise debits
exactly the cost and reports success with everything else unchanged; on
failure the scheduler marks the participant non-alive, records it bankrupt
and purges all of its open offers with restitution, so the participant with
cash 5 and operational cost 10 ends payment collection with cash equal to the
total cash reserved in its open buy offers — 0 exactly when it holds none
(the spec scenario), not 0 in general. -/
theorem C8_operational_payment (a : Agent) (st : SimState) (name : String) :
    (a.inventory.cash < a.operational_cost →
      collect_operational_payment a =
        ({ a with inventory := { a.inventory with cash := 0 } }, false)) ∧
    (¬ a.inventory.cash < a.operational_cost →
      collect_operational_payment a =
        ({ a with inventory :=
            { a.inventory with cash := a.inventory.cash - a.operational_cost } }, true)) ∧
    (∀ a', lookupAgent st.market.agents name = some a' →
      a'.inventory.cash = 5 → a'.operational_cost = 10 →
      ∃ a2, lookupAgent (collect_agent_payment st name).market.agents name = some a2 ∧
        a2.inventory.cash =
          sumO cashVal (st.market.repository.filter (fun o => o.supplier = name)) ∧
        a2.is_alive = false ∧
        name ∈ (collect_agent_payment st name).bankrupt ∧
        ∀ o ∈ (collect_agent_payment st name).market.repository, ¬ o.supplier = name) := by
  refine ⟨?_, ?_, ?_⟩
  · intro h
    unfold collect_operational_payment
    rw [if_pos h]
  · intro h
    unfold collect_operational_payment
    rw [if_neg h]
  · intro a' ha' hc5 hc10
    have hlt : a'.inventory.cash < a'.operational_cost := by
      rw [hc5, hc10]; norm_num
    have hcol : collect_operational_payment a' =
        ({ a' with inventory := { a'.inventory with cash := 0 } }, false) := by
      unfold collect_operational_payment
      rw [if_pos hlt]
    unfold collect_agent_payment
    simp only [ha', hcol]
    rw [if_neg (by simp)]
    have hlook2 : lookupAgent
        (updateAgent (updateAgent st.market.agents name
          (fun _ => { a' with inventory := { a'.inventory with cash := 0 } }))
          name (fun b => { b with is_alive := false })) name =
        some { inventory := { a'.inventory with cash := 0 }, energy := a'.energy,
               operational_cost := a'.operational_cost, is_alive := false } := by
      rw [lookupAgent_update_self _ (lookupAgent_update_self _ ha')]
    refine ⟨_, lookup_delete_agent_offers_self _ name _ hlook2, ?_, rfl, by simp, ?_⟩
    · dsimp only
      rw [cash_foldl_returnOffer]
      show (0 : ℚ) + sumO cashVal (st.market.repository.filter (fun o => o.supplier = name)) = _
      rw [zero_add]
    · intro o ho
      have := List.mem_filter.mp ho
      simpa using this.2

/-- Concrete state for the C8 counterexample: P has cash 5, operational cost
10 and an open buy offer reserving 9 cash in the book — a state P itself
reaches by posting the buy offer during its turn. -/
def stC8x : SimState :=
  { market := { repository := [{ supplier := "P", item := Item.apple, quantity := 1, price := 9,
                                 message := "", offer_type := OfferType.buy, id := 1 }],
                agents := [("P", { inventory := ⟨5, 0, 0, 0⟩, energy := 4,
                                   operational_cost := 10, is_alive := true })],
                next_id := 2,
                trade_history := [] },
    bankrupt := [],
    dead := [] }

/-- Claim C8 as stated is false: P (cash 5, operational cost 10) fails
payment collection, is marked bankrupt and has its offers purged — but the
purge returns the 9 cash reserved by P's open buy offer, so P ends with cash
9, not 0. -/
theorem C8_counterexample :
    ∃ a2, lookupAgent (collect_agent_payment stC8x "P").market.agents "P" = some a2 ∧
      a2.is_alive = false ∧ "P" ∈ (collect_agent_payment stC8x "P").bankrupt ∧
      a2.inventory.cash = 9 ∧ ¬ a2.inventory.cash = 0 := by
  have ha : lookupAgent stC8x.market.agents "P" =
      some { inventory := ⟨5, 0, 0, 0⟩, energy := 4, operational_cost := 10,
             is_alive := true } := rfl
  have hcol : collect_operational_payment
      { inventory := ⟨5, 0, 0, 0⟩, energy := 4, operational_cost := 10, is_alive := true } =
      ({ inventory := ⟨0, 0, 0, 0⟩, energy := 4, operational_cost := 10,
         is_alive := true }, false) := by
    unfold collect_operational_payment
    rw [if_pos (by norm_num : (5 : ℚ) < 10)]
  unfold collect_agent_payment
  simp only [ha, hcol]
  rw [if_neg (by simp)]
  have hlook2 : lookupAgent
      (updateAgent (updateAgent stC8x.market.agents "P"
        (fun _ => { inventory := ⟨0, 0, 0, 0⟩, energy := 4, operational_cost := 10,
                    is_alive := true }))
        "P" (fun b => { b with is_alive := false })) "P" =
      some { inventory := ⟨0, 0, 0, 0⟩, energy := 4, operational_cost := 10,
             is_alive := false } := by
    rw [lookupAgent_update_self _ (lookupAgent_update_self _ ha)]
  refine ⟨_, lookup_delete_agent_offers_self _ "P" _ hlook2, rfl, by simp [stC8x], ?_, ?_⟩
  · show (0 : ℚ) + 9 = 9
    norm_num
  · show ¬ (0 : ℚ) + 9 = 0
    norm_num

/-- Concrete state for the C8 witness: P has cash 5, operational cost 10 and
one open sell offer (2 apples reserved, no cash reserved) in the book. -/
def stC8 : SimState :=
  { market := { repository := [{ supplier := "P", item := Item.apple, quantity := 2, price := 9,
                                 message := "", offer_type := OfferType.sell, id := 1 }],
                agents := [("P", { inventory := ⟨5, 1, 0, 0⟩, energy := 4,
                                   operational_cost := 10, is_alive := true })],
                next_id := 2,
                trade_history := [] },
    bankrupt := [],
    dead := [] }

/-- Witness: the C8 scenario at `stC8`. -/
theorem C8_operational_payment_witness :
    ∃ a2, lookupAgent (collect_agent_payment stC8 "P").market.agents "P" = some a2 ∧
      a2.inventory.cash =
        sumO cashVal (stC8.market.repository.filter (fun o => o.supplier = "P")) ∧
      a2.is_alive = false ∧
      "P" ∈ (collect_agent_payment stC8 "P").bankrupt ∧
      ∀ o ∈ (collect_agent_payment stC8 "P").market.repository, ¬ o.supplier = "P" :=
  (C8_operational_payment
    { inventory := ⟨5, 1, 0, 0⟩, energy := 4, operational_cost := 10, is_alive := true }
    stC8 "P").2.2
    { inventory := ⟨5, 1, 0, 0⟩, energy := 4, operational_cost := 10, is_alive := true }
    rfl rfl rfl

/-! ### Claim C9: non-negativity machinery -/

/-- A successful lookup is an entry of the dictionary. -/
theorem lookupAgent_mem {m : AgentMap} {n : String} {a : Agent}
    (h : lookupAgent m n = some a) : (n, a) ∈ m := by
  induction m with
  | nil => simp [lookupAgent] at h
  | cons p rest ih =>
    obtain ⟨k, b⟩ := p
    by_cases hk : k = n
    · subst hk
      simp only [lookupAgent, if_pos] at h
      obtain rfl : b = a := by simp at h; exact h
      exact List.mem_cons_self _ _
    · simp only [lookupAgent, hk, ite_false, if_neg] at h
      exact List.mem_cons_of_mem _ (ih h)

/-- Repository assignment only introduces the assigned offer. -/
theorem mem_updateRepository {l : List TrackedOffer} {t o : TrackedOffer}
    (h : o ∈ updateRepository l t) : o ∈ l ∨ o = t := by
  unfold updateRepository at h
  by_cases hc : l.any (fun o => o.id = t.id) = true
  · rw [if_pos hc] at h
    obtain ⟨x, hx, hxo⟩ := List.mem_map.mp h
    by_cases hxid : x.id = t.id
    · right; rw [if_pos hxid] at hxo; exact hxo.symm
    · left; rw [if_neg hxid] at hxo; exact hxo ▸ hx
  · rw [if_neg hc] at h
    rcases List.mem_append.mp h with h | h
    · left; exact h
    · right; simpa using h

theorem offersValid_removeOffer {l : List TrackedOffer} {i : ℕ}
    (h : OffersValid l) : OffersValid (removeOffer l i) :=
  fun o ho => h o (mem_removeOffer ho)

theorem offersValid_filter {l : List TrackedOffer} (p : TrackedOffer → Prop)
    [DecidablePred p] (h : OffersValid l) : OffersValid (l.filter (fun o => p o)) :=
  fun o ho => h o (List.mem_filter.mp ho).1

theorem nonnegInv_creditCash {inv : Inventory} {p : ℚ}
    (h : NonnegInv inv) (hp : 0 ≤ p) : NonnegInv (creditCash inv p) := by
  rcases h with ⟨hc, ha, hch, hg⟩
  exact ⟨by show 0 ≤ inv.cash + p; linarith, ha, hch, hg⟩

theorem nonnegInv_creditItem {inv : Inventory} {q : ℤ} (it : Item)
    (h : NonnegInv inv) (hq : 0 ≤ q) : NonnegInv (creditItem inv it q) := by
  have := getItem_nonneg it h
  exact nonnegInv_setItem it h (by linarith)

theorem nonnegInv_returnOffer {inv : Inventory} {o : TrackedOffer}
    (h : NonnegInv inv) (hv : ValidOffer o) : NonnegInv (returnOffer inv o) := by
  unfold returnOffer
  cases ho : o.offer_type
  · exact nonnegInv_creditItem _ h (le_of_lt hv.1)
  · exact nonnegInv_creditCash h (le_of_lt hv.2)

theorem nonnegInv_buyerSettle {inv : Inventory} {q : ℤ} {p : ℚ} (it : Item)
    (h : NonnegInv inv) (hq : 0 ≤ q) (hp : p ≤ inv.cash) :
    NonnegInv (buyerSettle inv it q p) := by
  obtain ⟨-, ha, hc, hg⟩ := nonnegInv_creditItem it h hq
  obtain ⟨hcash, -, -, -⟩ := h
  exact ⟨by show 0 ≤ inv.cash - p; linarith, ha, hc, hg⟩

theorem nonnegInv_sellerSettle {inv : Inventory} {q : ℤ} {p : ℚ} (it : Item)
    (h : NonnegInv inv) (hq : q ≤ inv.getItem it) (hp : 0 ≤ p) :
    NonnegInv (sellerSettle inv it q p) := by
  have h0 : (0 : ℤ) ≤ inv.getItem it - q := by linarith
  obtain ⟨-, ha, hc, hg⟩ := nonnegInv_setItem it h h0
  obtain ⟨hcash, -, -, -⟩ := h
  exact ⟨by show 0 ≤ inv.cash + p; linarith, ha, hc, hg⟩

/-- `updateAgent` keeps every inventory non-negative when the image of the
looked-up agent is non-negative. -/
theorem agentsNonneg_update {m : AgentMap} {n : String} (f : Agent → Agent)
    (h : AgentsNonneg m)
    (hf : ∀ x, lookupAgent m n = some x → NonnegInv (f x).inventory) :
    AgentsNonneg (updateAgent m n f) :=
  @updateAgent_pred (fun ag => NonnegInv ag.inventory) m n f h hf

/-- The restitution fold keeps every inventory non-negative. -/
theorem agentsNonneg_foldl_return (owned : List TrackedOffer) (n : String)
    (hv : ∀ o ∈ owned, ValidOffer o) :
    ∀ m : AgentMap, AgentsNonneg m →
      AgentsNonneg (owned.foldl (fun ag o => updateAgent ag n
        (fun x => { x with inventory := returnOffer x.inventory o })) m) := by
  induction owned with
  | nil => intro m hm; exact hm
  | cons o rest ih =>
    intro m hm
    rw [List.foldl_cons]
    refine ih (fun o ho => hv o (List.mem_cons_of_mem _ ho)) _ ?_
    refine agentsNonneg_update _ hm ?_
    intro x hx
    exact nonnegInv_returnOffer (hm _ (lookupAgent_mem hx)) (hv o (List.mem_cons_self _ _))

/-- Purging preserves the market invariant. -/
theorem marketInv_delete {s : MarketState} (n : String) (b : Bool)
    (h : MarketInv s) : MarketInv (delete_agent_offers s n b) := by
  obtain ⟨hag, hof⟩ := h
  constructor
  · cases b
    · exact hag
    · exact agentsNonneg_foldl_return _ n
        (fun o ho => hof o (List.mem_filter.mp ho).1) _ hag
  · rw [repository_delete_agent_offers]
    exact offersValid_filter _ hof

/-- Sell-offer creation preserves the market invariant when the draft passed
pydantic validation. -/
theorem marketInv_create_offer {s : MarketState} {offer : OfferDraft}
    (h : MarketInv s) (hd : 0 < offer.quantity ∧ 0 < offer.price) :
    MarketInv (create_offer s offer).1 := by
  obtain ⟨hag, hof⟩ := h
  cases hs : lookupAgent s.agents offer.supplier with
  | none => simp [create_offer, hs]; exact ⟨hag, hof⟩
  | some sup =>
    by_cases hq : sup.inventory.getItem offer.item < offer.quantity
    · simp [create_offer, hs, hq]; exact ⟨hag, hof⟩
    · rw [create_offer_success hs hq]
      constructor
      · refine agentsNonneg_update _ hag ?_
        intro x hx
        obtain rfl : x = sup := by rw [hs] at hx; exact (by simpa using hx : sup = x).symm
        have hx0 := hag _ (lookupAgent_mem hs)
        exact nonnegInv_setItem _ hx0 (by omega)
      · intro o' ho'
        rcases mem_updateRepository ho' with ho' | ho'
        · exact hof o' ho'
        · subst ho'; exact ⟨hd.1, hd.2⟩

/-- Buy-offer creation preserves the market invariant when the draft passed
pydantic validation. -/
theorem marketInv_create_buy_offer {s : MarketState} {offer : OfferDraft}
    (h : MarketInv s) (hd : 0 < offer.quantity ∧ 0 < offer.price) :
    MarketInv (create_buy_offer s offer).1 := by
  obtain ⟨hag, hof⟩ := h
  cases hs : lookupAgent s.agents offer.supplier with
  | none => simp [create_buy_offer, hs]; exact ⟨hag, hof⟩
  | some buyer =>
    by_cases hp : buyer.inventory.cash < offer.price
    · simp [create_buy_offer, hs, hp]; exact ⟨hag, hof⟩
    · rw [create_buy_offer_success hs hp]
      constructor
      · refine agentsNonneg_update _ hag ?_
        intro x hx
        obtain rfl : x = buyer := by rw [hs] at hx; exact (by simpa using hx : buyer = x).symm
        obtain ⟨hc, ha, hch, hg⟩ := hag _ (lookupAgent_mem hs)
        exact ⟨by show 0 ≤ x.inventory.cash - offer.price; linarith, ha, hch, hg⟩
      · intro o' ho'
        rcases mem_updateRepository ho' with ho' | ho'
        · exact hof o' ho'
        · subst ho'; exact ⟨hd.1, hd.2⟩

/-- Sell-path acceptance preserves the market invariant (for offers of either
direction: the reserved-or-not distinction does not matter for positivity). -/
theorem marketInv_evaluate_sell {s : MarketState} (b : String) (i : ℕ)
    (h : MarketInv s) : MarketInv (evaluate_sell_transaction s b i).1 := by
  obtain ⟨hag, hof⟩ := h
  cases hf : findOffer s.repository i with
  | none => simp [evaluate_sell_notFound hf]; exact ⟨hag, hof⟩
  | some o =>
    by_cases h1 : b = o.supplier
    · simp [evaluate_sell_transaction, hf, h1]; exact ⟨hag, hof⟩
    · cases hb : lookupAgent s.agents b with
      | none => simp [evaluate_sell_transaction, hf, h1, hb]; exact ⟨hag, hof⟩
      | some buyer =>
        cases hs2 : lookupAgent s.agents o.supplier with
        | none => simp [evaluate_sell_transaction, hf, h1, hb, hs2]; exact ⟨hag, hof⟩
        | some sup =>
          by_cases hp : buyer.inventory.cash < o.price
          · simp [evaluate_sell_transaction, hf, h1, hb, hs2, hp]; exact ⟨hag, hof⟩
          · rw [evaluate_sell_success hf h1 hb hs2 hp]
            have hov := hof o (findOffer_mem hf).1
            have hag1 : AgentsNonneg (updateAgent s.agents b (fun a =>
                { a with inventory := buyerSettle buyer.inventory o.item o.quantity o.price })) := by
              refine agentsNonneg_update _ hag ?_
              intro x hx
              exact nonnegInv_buyerSettle _ (hag _ (lookupAgent_mem hb))
                (le_of_lt hov.1) (le_of_not_lt hp)
            constructor
            · refine agentsNonneg_update _ hag1 ?_
              intro x hx
              exact nonnegInv_creditCash (hag _ (lookupAgent_mem hs2)) (le_of_lt hov.2)
            · exact offersValid_removeOffer hof

/-- Buy-path acceptance preserves the market invariant. -/
theorem marketInv_evaluate_buy {s : MarketState} (b : String) (i : ℕ)
    (h : MarketInv s) : MarketInv (evaluate_buy_transaction s b i).1 := by
  obtain ⟨hag, hof⟩ := h
  cases hf : findOffer s.repository i with
  | none => simp [evaluate_buy_notFound hf]; exact ⟨hag, hof⟩
  | some o =>
    by_cases hd : o.offer_type ≠ OfferType.buy
    · simp [evaluate_buy_transaction, hf, hd]; exact ⟨hag, hof⟩
    · by_cases h1 : b = o.supplier
      · simp [evaluate_buy_transaction, hf, hd, h1]; exact ⟨hag, hof⟩
      · cases hb : lookupAgent s.agents b with
        | none => simp [evaluate_buy_transaction, hf, hd, h1, hb]; exact ⟨hag, hof⟩
        | some seller =>
          cases hs2 : lookupAgent s.agents o.supplier with
          | none => simp [evaluate_buy_transaction, hf, hd, h1, hb, hs2]; exact ⟨hag, hof⟩
          | some sup =>
            by_cases hq : seller.inventory.getItem o.item < o.quantity
            · simp [evaluate_buy_transaction, hf, hd, h1, hb, hs2, hq]; exact ⟨hag, hof⟩
            · rw [evaluate_buy_success hf hd h1 hb hs2 hq]
              have hov := hof o (findOffer_mem hf).1
              have hag1 : AgentsNonneg (updateAgent s.agents b (fun a =>
                  { a with inventory := sellerSettle a.inventory o.item o.quantity o.price })) := by
                refine agentsNonneg_update _ hag ?_
                intro x hx
                obtain rfl : x = seller := by rw [hb] at hx; exact (by simpa using hx : seller = x).symm
                exact nonnegInv_sellerSettle _ (hag _ (lookupAgent_mem hb))
                  (le_of_not_lt hq) (le_of_lt hov.2)
              constructor
              · refine agentsNonneg_update _ hag1 ?_
                intro x hx
                exact nonnegInv_creditItem _ (hag1 _ (lookupAgent_mem hx)) (le_of_lt hov.1)
              · exact offersValid_removeOffer hof

/-- Cancellation preserves the market invariant. -/
theorem marketInv_cancel {s : MarketState} (n : String) (i : ℕ)
    (h : MarketInv s) : MarketInv (cancel_offer s n i).1 := by
  obtain ⟨hag, hof⟩ := h
  cases hf : findOffer s.repository i with
  | none => simp [cancel_offer, hf]; exact ⟨hag, hof⟩
  | some o =>
    by_cases hown : o.supplier ≠ n
    · simp [cancel_offer, hf, hown]; exact ⟨hag, hof⟩
    · cases ha : lookupAgent s.agents n with
      | none => simp [cancel_offer, hf, hown, ha]; exact ⟨hag, hof⟩
      | some a =>
        rw [cancel_offer_success hf hown ha]
        constructor
        · refine agentsNonneg_update _ hag ?_
          intro x hx
          exact nonnegInv_returnOffer (hag _ (lookupAgent_mem hx))
            (hof o (findOffer_mem hf).1)
        · exact offersValid_removeOffer hof

/-- Every valid ledger operation preserves the market invariant. -/
theorem marketInv_applyLedgerOp {s : MarketState} (op : LedgerOp)
    (h : MarketInv s) (hv : op.Valid) : MarketInv (applyLedgerOp s op).1 := by
  cases op with
  | createSell sup it q p m => exact marketInv_create_offer h hv
  | createBuy buyer it q p m => exact marketInv_create_buy_offer h hv
  | acceptSell b j => exact marketInv_evaluate_sell b j h
  | acceptBuy b j => exact marketInv_evaluate_buy b j h
  | cancel n j => exact marketInv_cancel n j h
  | purgeRestitution n => exact marketInv_delete n true h

/-- Payment collection preserves the scheduler invariant. -/
theorem simInv_collect (st : SimState) (name : String) (h : SimInv st) :
    SimInv (collect_agent_payment st name) := by
  obtain ⟨hag, hof⟩ := h
  unfold collect_agent_payment
  cases ha : lookupAgent st.market.agents name with
  | none => exact ⟨hag, hof⟩
  | some a =>
    dsimp only
    by_cases hc : a.inventory.cash < a.operational_cost
    · have hcol : collect_operational_payment a =
          ({ a with inventory := { a.inventory with cash := 0 } }, false) := by
        unfold collect_operational_payment
        rw [if_pos hc]
      rw [hcol]
      rw [if_neg (by simp)]
      have hag1 : AgentsNonneg (updateAgent st.market.agents name
          (fun _ => { a with inventory := { a.inventory with cash := 0 } })) := by
        refine agentsNonneg_update _ hag ?_
        intro x hx
        obtain ⟨-, hap, hch, hg⟩ := hag _ (lookupAgent_mem ha)
        exact ⟨by show (0 : ℚ) ≤ 0; norm_num, hap, hch, hg⟩
      exact marketInv_delete name true
        ⟨agentsNonneg_update _ hag1 (fun x hx => hag1 _ (lookupAgent_mem hx)), hof⟩
    · have hcol : collect_operational_payment a =
          ({ a with inventory :=
              { a.inventory with cash := a.inventory.cash - a.operational_cost } }, true) := by
        unfold collect_operational_payment
        rw [if_neg hc]
      rw [hcol]
      rw [if_pos rfl]
      refine ⟨?_, hof⟩
      refine agentsNonneg_update _ hag ?_
      intro x hx
      obtain ⟨hc0, hap, hch, hg⟩ := hag _ (lookupAgent_mem ha)
      exact ⟨by show 0 ≤ a.inventory.cash - a.operational_cost; linarith, hap, hch, hg⟩

/-- The death check preserves the scheduler invariant. -/
theorem simInv_drainDeath (st : SimState) (name : String) (a1 : Agent) (h : SimInv st) :
    SimInv (drainDeath st name a1) := by
  unfold drainDeath
  by_cases hd : a1.energy = 0
  · rw [if_pos hd]
    exact marketInv_delete name true
      ⟨agentsNonneg_update _ h.1 (fun x hx => h.1 _ (lookupAgent_mem hx)), h.2⟩
  · rw [if_neg hd]
    exact h

/-- The apple-conversion check preserves the scheduler invariant. -/
theorem simInv_drainConvert (st : SimState) (name : String) (h : SimInv st) :
    SimInv (drainConvert st name) := by
  unfold drainConvert
  cases hb : lookupAgent st.market.agents name with
  | none => exact h
  | some b =>
    dsimp only
    by_cases hcond : b.energy < general_settings.energy_qty_to_consume_apple ∧
        b.inventory.apple ≠ 0
    · rw [if_pos hcond]
      refine ⟨?_, h.2⟩
      refine agentsNonneg_update _ h.1 ?_
      intro x hx
      obtain rfl : x = b := by rw [hb] at hx; exact (by simpa using hx : b = x).symm
      obtain ⟨hc, hap, hch, hg⟩ := h.1 _ (lookupAgent_mem hb)
      have hap' : 0 ≤ x.inventory.apple := hap
      rcases hcond with ⟨-, hne⟩
      exact ⟨hc, by show 0 ≤ x.inventory.apple - 1; omega, hch, hg⟩
    · rw [if_neg hcond]
      exact h

/-- The decay-pass body preserves the scheduler invariant. -/
theorem simInv_drainOne (st : SimState) (name : String) (h : SimInv st) :
    SimInv (drainOne st name) := by
  unfold drainOne
  cases ha : lookupAgent st.market.agents name with
  | none => exact h
  | some a =>
    dsimp only
    refine simInv_drainConvert _ _ (simInv_drainDeath _ _ _ ?_)
    exact ⟨agentsNonneg_update _ h.1 (fun x hx => h.1 _ (lookupAgent_mem ha)), h.2⟩

/-- The whole decay pass preserves the scheduler invariant. -/
theorem simInv_drain_energy (queue : List String) :
    ∀ st : SimState, SimInv st → SimInv (drain_energy st queue) := by
  induction queue with
  | nil => intro st h; exact h
  | cons n rest ih =>
    intro st h
    unfold drain_energy at ih ⊢
    rw [List.foldl_cons]
    exact ih _ (simInv_drainOne st n h)

/-- Every valid scheduler-level step preserves the scheduler invariant. -/
theorem simInv_applySimOp (op : SimOp) (st : SimState)
    (h : SimInv st) (hv : op.Valid) : SimInv (applySimOp st op) := by
  cases op with
  | ledgerStep lop => exact marketInv_applyLedgerOp lop h hv
  | collectStep n => exact simInv_collect st n h
  | drainStep q => exact simInv_drain_energy q st h

/-- The scheduler invariant across any sequence of valid steps. -/
theorem simInv_applySimOps (ops : List SimOp) :
    ∀ st : SimState, SimInv st → (∀ op ∈ ops, SimOp.Valid op) →
      SimInv (ops.foldl applySimOp st) := by
  induction ops with
  | nil => intro st h _; exact h
  | cons op rest ih =>
    intro st h hv
    rw [List.foldl_cons]
    exact ih _ (simInv_applySimOp op st h (hv op (List.mem_cons_self _ _)))
      (fun o ho => hv o (List.mem_cons_of_mem _ ho))

/-- C9: starting from a well-formed state (all inventory fields non-negative,
all open offers pydantic-valid), no sequence of market or scheduler
operations — ledger operations with pydantic-valid drafts, payment
collections, decay passes — ever drives any inventory field negative: any
operation that would is rejected by validation before mutating state. -/
theorem C9_nonneg_invariant (st : SimState) (ops : List SimOp)
    (h : SimInv st) (hv : ∀ op ∈ ops, SimOp.Valid op) :
    AgentsNonneg (ops.foldl applySimOp st).market.agents :=
  (simInv_applySimOps ops st h hv).1

/-- Concrete state for the C9 witness. -/
def stC9 : SimState :=
  { market := { repository := [],
                agents := [("A", { inventory := ⟨3, 1, 0, 0⟩, energy := 4,
                                   operational_cost := 1, is_alive := true })],
                next_id := 1,
                trade_history := [] },
    bankrupt := [],
    dead := [] }

/-- Witness: C9 over a create-sell, payment collection and decay pass at
`stC9`. -/
theorem C9_nonneg_invariant_witness :
    AgentsNonneg (([SimOp.ledgerStep (LedgerOp.createSell "A" Item.apple 1 2 ""),
      SimOp.collectStep "A", SimOp.drainStep ["A"]].foldl applySimOp stC9).market.agents) :=
  C9_nonneg_invariant stC9 _
    ⟨by intro p hp
        simp only [stC9, List.mem_singleton] at hp
        subst hp
        exact ⟨by norm_num, by norm_num, by norm_num, by norm_num⟩,
     by intro o ho; simp [stC9] at ho⟩
    (by intro op hop
        simp only [List.mem_cons, List.not_mem_nil, or_false] at hop
        rcases hop with rfl | rfl | rfl
        · exact ⟨by norm_num, by norm_num⟩
        · trivial
        · trivial)

/-! ### Claim C4: the round loop and the metrics division -/

/-- The empty simulation: no participants, nothing in the book. -/
def stC4 : SimState :=
  { market := { repository := [], agents := [], next_id := 1, trade_history := [] },
    bankrupt := [],
    dead := [] }

/-- C4 fails on the code: with one configured round and zero participants the
loop does not complete its rounds as no-ops — `_save_round_metrics` divides
each good's summed price by its trade count, which is zero in a round with no
trades, so the very first round aborts with a `ZeroDivisionError`.  (The
slice `history[-0:]` also takes the whole history rather than this round's
trades, so any round in which some good has no trades at all crashes the
run.) -/
theorem C4_run_crashes_zero_trades :
    runSimulation (fun _ _ st => st) (fun _ q => q) stC4 [] 1 =
      Except.error RunErr.zeroDivision := rfl

/-- Concrete state for the C7 witness: A holds 5 apples, B holds 8 cash. -/
def sC7 : MarketState :=
  { repository := [],
    agents := [("A", { inventory := ⟨0, 5, 0, 0⟩, energy := 4, operational_cost := 1, is_alive := true }),
               ("B", { inventory := ⟨8, 0, 0, 0⟩, energy := 4, operational_cost := 1, is_alive := true })],
    next_id := 1,
    trade_history := [] }

/-- Witness: the round-trip laws at `sC7` (sell 2 apples at 3; buy at 3). -/
theorem C7_roundtrip_laws_witness :
    ((create_offer sC7 ⟨"A", Item.apple, 2, 3, "", OfferType.sell⟩).2 = none ∧
     (cancel_offer (create_offer sC7 ⟨"A", Item.apple, 2, 3, "", OfferType.sell⟩).1
       "A" sC7.next_id).2 = none ∧
     Option.map (fun ag => ag.inventory.getItem Item.apple)
       (lookupAgent (cancel_offer (create_offer sC7 ⟨"A", Item.apple, 2, 3, "", OfferType.sell⟩).1
         "A" sC7.next_id).1.agents "A") = some 5) ∧
    ((create_buy_offer sC7 ⟨"B", Item.apple, 2, 3, "", OfferType.buy⟩).2 = none ∧
     (cancel_offer (create_buy_offer sC7 ⟨"B", Item.apple, 2, 3, "", OfferType.buy⟩).1
       "B" sC7.next_id).2 = none ∧
     Option.map (fun ag => ag.inventory.cash)
       (lookupAgent (cancel_offer (create_buy_offer sC7 ⟨"B", Item.apple, 2, 3, "", OfferType.buy⟩).1
         "B" sC7.next_id).1.agents "B") = some 8) :=
  C7_roundtrip_laws sC7 "A" "B" Item.apple 2 3 "" ""
    { inventory := ⟨0, 5, 0, 0⟩, energy := 4, operational_cost := 1, is_alive := true }
    { inventory := ⟨8, 0, 0, 0⟩, energy := 4, operational_cost := 1, is_alive := true }
    (by simp [FreshIds, sC7]) rfl (by decide) rfl (by decide)
